import Mathlib

set_option autoImplicit false

/-!
Verification development for the RibosomeProfiling C++ tools
(`filter_reverse_reads.cpp`, `select_transcripts.cpp`,
`filter_ambiguous_genes.cpp`).

Lines of the SAM-like input are modelled as `List Char`.  The C++ string
primitives (`std::string::find`, `rfind`, `substr`, `std::getline` with a
tab delimiter, `std::stoull`) are translated into executable Lean
functions below; each per-tool `main` loop is translated into a fueled
structural recursion (fuel = number of remaining input lines) so that the
model evaluates by kernel reduction.

`std::stoull` semantics: the sources only ever apply it to decimal-digit
field contents; a field whose first character is not a digit would make
`std::stoull` throw and terminate the process.  The model returns
`Option Nat` (`none` = uncaught exception, `Halt.exc` at the driver
level); leading white space and sign handling of `stoull`, irrelevant for
these inputs, are not modelled.
-/

/-- Abort of a run: a `return <code>` from `main` with a non-zero code,
or process termination by an uncaught exception (`std::stoull`). -/
inductive Halt where
  | code : Nat → Halt
  | exc : Halt
deriving DecidableEq, Repr

/-- Decimal digit character for `d ≤ 9` (used to model `std::to_string`). -/
def dChar : Nat → Char
  | 0 => '0' | 1 => '1' | 2 => '2' | 3 => '3' | 4 => '4'
  | 5 => '5' | 6 => '6' | 7 => '7' | 8 => '8' | _ => '9'

/-- Fueled decimal printer; fuel `n+1` is always enough for `n`. -/
def natCharsF : Nat → Nat → List Char
  | 0, _ => []
  | fuel+1, n => if n < 10 then [dChar n] else natCharsF fuel (n / 10) ++ [dChar (n % 10)]

/-- Models `std::to_string` on an unsigned integer. -/
def natChars (n : Nat) : List Char := natCharsF (n+1) n

/-- Is `c` a decimal digit? -/
def isDig (c : Char) : Bool := 48 ≤ c.toNat && c.toNat ≤ 57

/-- Value of a digit character. -/
def digVal (c : Char) : Nat := c.toNat - 48

/-- Value of a digit string (most significant first). -/
def valOfDigs (l : List Char) : Nat := l.foldl (fun a c => 10 * a + digVal c) 0

/-- Models `std::stoull` on the field contents appearing in these tools:
parses the longest digit run at the front; `none` (an exception in the
source) if the front character is not a digit. -/
def parseNatPfx (l : List Char) : Option Nat :=
  match l.takeWhile isDig with
  | [] => none
  | d => some (valOfDigs d)

/-- First index `j ≥ i` with `l[j] = c`; models `std::string::find(c, i)`. -/
def findAfter : List Char → Char → Nat → Option Nat
  | [], _, _ => none
  | x :: xs, c, 0 => if x = c then some 0 else (findAfter xs c 0).map (· + 1)
  | _ :: xs, c, i+1 => (findAfter xs c i).map (· + 1)

/-- Models `line.substr(a, b - a)`. -/
def sliceLC (l : List Char) (a b : Nat) : List Char := (l.drop a).take (b - a)

/-- Does `p` occur in `l` at position `i`?  (Core of `find`/`rfind` on a
pattern string.) -/
def occursAt (p l : List Char) (i : Nat) : Bool := p.isPrefixOf (l.drop i)

/-- Models `line.find(pat)`: first occurrence position of `pat`. -/
def findSubAt (l p : List Char) : Option Nat :=
  ((List.range (l.length + 1)).filter (occursAt p l)).head?

/-- Models `line.rfind(pat)`: last occurrence position of `pat`. -/
def rfindSub (l p : List Char) : Option Nat :=
  ((List.range (l.length + 1)).filter (occursAt p l)).getLast?

/-- Boolean prefix test (`line.rfind(pat, 0) == 0` in the sources). -/
def startsW (p l : List Char) : Bool := p.isPrefixOf l

/-- Fields of a line under `std::string`-`find` semantics: split at every
tab, so a line with `t` tabs has `t+1` fields.  `splitTabs [] = [[]]`. -/
def splitTabs : List Char → List (List Char)
  | [] => [[]]
  | c :: cs =>
    if c = '\t' then [] :: splitTabs cs
    else
      match splitTabs cs with
      | [] => [[c]]
      | f :: fs => (c :: f) :: fs

/-- Fields of a line under `std::getline(stream, part, '\t')` semantics,
as used by the rewrite loop of both per-record tools: like `splitTabs`
except that an empty string yields no field and a single trailing empty
field (line ending in a tab) is not produced. -/
def cppFields (l : List Char) : List (List Char) :=
  let f := splitTabs l
  if f.getLast? = some [] then f.dropLast else f

/-- Rejoin fields with tabs (the rewrite loop emits a tab before every
field except the first). -/
def joinTabs : List (List Char) → List Char
  | [] => []
  | [f] => f
  | f :: fs => f ++ '\t' :: joinTabs fs

/-- The slice between the first and the second tab of a line, or `none`
if the line has fewer than two tabs.  This is the FLAG column access
shared by `check_flag` (filter_reverse_reads.cpp) and `primary_flag`
(select_transcripts.cpp). -/
def flagSlice (l : List Char) : Option (List Char) :=
  match findAfter l '\t' 0 with
  | none => none
  | some i =>
    match findAfter l '\t' (i+1) with
    | none => none
    | some j => some (sliceLC l (i+1) j)

/-- `check_flag(line, flag)` of filter_reverse_reads.cpp (and the
identical `primary_flag` of select_transcripts.cpp with `flag = 256`):
`some false` when fewer than two tabs (logged, not fatal), `none` when
`std::stoull` would throw, otherwise `some (value &&& flag == 0)`. -/
def check_flag (l : List Char) (flag : Nat) : Option Bool :=
  match flagSlice l with
  | none => some false
  | some s => (parseNatPfx s).map (fun v => v &&& flag == 0)

/-- `forward_flag` of filter_reverse_reads.cpp. -/
def forward_flag (l : List Char) : Option Bool := check_flag l 16

/-- `primary_flag` of filter_reverse_reads.cpp / select_transcripts.cpp. -/
def primary_flag (l : List Char) : Option Bool := check_flag l 256

/-- Did the line pass the reverse-strand filter? -/
def fwdT (l : List Char) : Bool := check_flag l 16 == some true

/-- Is the line marked as a primary alignment (bit 256 clear)? -/
def primT (l : List Char) : Bool := check_flag l 256 == some true

/-- The characters of the multiplicity tag key including the leading tab,
`"\tNH:i:"`, searched with `rfind` by all three tools. -/
def nhSearchL : List Char := ['\t', 'N', 'H', ':', 'i', ':']

/-- `"NH:i:"`, the multiplicity tag key as a field-content pattern. -/
def nhTagL : List Char := ['N', 'H', ':', 'i', ':']

/-- `"HI:i:"`, the group-index tag key as a field-content pattern. -/
def hiTagL : List Char := ['H', 'I', ':', 'i', ':']

/-- Locate the multiplicity tag value: `count = line.rfind("\tNH:i:")`,
then the text from `count + 6` up to the next tab or end of line.
`none` = missing tag (non-fatal in every tool). -/
def nhField (l : List Char) : Option (List Char) :=
  match rfindSub l nhSearchL with
  | none => none
  | some p =>
    let a := p + 6
    match findAfter l '\t' a with
    | none => some (l.drop a)
    | some b => some (sliceLC l a b)

/-- Fueled floor of `log₁₀`; fuel `n` is always enough for argument `n`. -/
def lf10 : Nat → Nat → Nat
  | 0, _ => 0
  | fuel+1, n => if n < 10 then 0 else lf10 fuel (n / 10) + 1

/-- `⌊log₁₀ n⌋` for `n ≥ 1` (and `0` for `n = 0`). -/
def logFloor10 (n : Nat) : Nat := lf10 n n

/-- The recomputed mapping quality of a reduced group of `k` survivors:
models `(size_t)(k <= 1 ? 255 : (-10 * std::log10(1 - 1.0 / k)))` from
filter_reverse_reads.cpp line 147 / select_transcripts.cpp line 176.
For `k ≥ 2` the truncating cast of `-10·log₁₀(1 - 1/k) = log₁₀(k¹⁰/(k-1)¹⁰)`
is the base-10 floor-log of `k¹⁰ / (k-1)¹⁰` (integer division is exact
enough here: theorem `mapqVal_eq_floor` below equates this with the real
floor; the `double` computation of the source is modelled by the exact
real value). -/
def mapqVal (k : Nat) : Nat :=
  if k ≤ 1 then 255 else logFloor10 (k ^ 10 / (k - 1) ^ 10)

/-- One field of the rewrite loop shared by filter_reverse_reads.cpp
(lines 148-168) and select_transcripts.cpp (lines 177-197).  `j` is the
0-based field index (the source counts `++j` from 1, testing `j == 2`
and `j == 5`), `isP` says whether this line was chosen as the new
primary alignment, `hi` is the 1-based group index to write.  The
`getD 0` in the flag branch is harmless: the drivers only place lines
whose FLAG field parsed into a group. -/
def rwField (isP : Bool) (mapq : List Char) (k hi : Nat) (j : Nat) (part : List Char) : List Char :=
  if j = 1 && isP then natChars (((parseNatPfx part).getD 0) ^^^ 256)
  else if j = 4 then mapq
  else if startsW nhTagL part then nhTagL ++ natChars k
  else if startsW hiTagL part then hiTagL ++ natChars hi
  else part

/-- The rewrite loop over the fields of one line. -/
def rewriteFieldsAux (isP : Bool) (mapq : List Char) (k hi : Nat) : Nat → List (List Char) → List (List Char)
  | _, [] => []
  | j, part :: parts => rwField isP mapq k hi j part :: rewriteFieldsAux isP mapq k hi (j+1) parts

/-- Rewrite one surviving line (split by `std::getline` on tabs, rewrite
each field, rejoin with tabs). -/
def rewriteLine (isP : Bool) (mapq : List Char) (k hi : Nat) (l : List Char) : List Char :=
  joinTabs (rewriteFieldsAux isP mapq k hi 0 (cppFields l))

/-- Emission of a reduced group: the i-th survivor (0-based) is rewritten
with group index `i+1`; `newP` is the index of the newly chosen primary
alignment (`none` when no flag may change). -/
def rrEmitAux (mapq : List Char) (k : Nat) (newP : Option Nat) : Nat → List (List Char) → List (List Char)
  | _, [] => []
  | i, l :: ls => rewriteLine (newP == some i) mapq k (i+1) l :: rrEmitAux mapq k newP (i+1) ls

/-- Emit the rewritten survivors of a group. -/
def rrEmit (g : List (List Char)) (newP : Option Nat) : List (List Char) :=
  rrEmitAux (natChars (mapqVal g.length)) g.length newP 0 g

/-- CIGAR extraction for the new-primary tie break
(filter_reverse_reads.cpp lines 119-135 / select_transcripts.cpp lines
148-164): advance `index` through five tabs starting the search at
`index + 1`. -/
def findNthTabFrom (l : List Char) : Nat → Nat → Option Nat
  | 0, idx => some idx
  | j+1, idx =>
    match findAfter l '\t' (idx+1) with
    | none => none
    | some k => findNthTabFrom l j k

/-- The CIGAR slice of one group line, or the tool exit code (`12` when
fewer than five tabs are found, `11` when the sixth is missing). -/
def cigarOf (l : List Char) : Except Nat (List Char) :=
  match findNthTabFrom l 5 0 with
  | none => .error 12
  | some index =>
    match findAfter l '\t' (index+1) with
    | none => .error 11
    | some index2 => .ok (sliceLC l index index2)

/-- Collect the CIGAR strings of all group lines, stopping at the first
failing line exactly as the source loop does. -/
def cigarsOf : List (List Char) → Except Nat (List (List Char))
  | [] => .ok []
  | x :: xs =>
    match cigarOf x with
    | .error c => .error c
    | .ok cg =>
      match cigarsOf xs with
      | .error c => .error c
      | .ok cgs => .ok (cg :: cgs)

/-- The group rewriter shared by filter_reverse_reads.cpp (lines 116-168)
and select_transcripts.cpp (lines 145-197).  `primary` is the recorded
index of a surviving primary alignment (`-1` sentinel in the source,
`Option Nat` here).  If one survived, `primary` is reset to the sentinel
so no flag changes; otherwise the CIGAR strings are extracted (exit 12 /
11 on missing columns), compared (a mismatch only logs a warning and
proceeds), and the first survivor becomes the new primary. -/
def rewriteGroup (g : List (List Char)) (primary : Option Nat) : Except Nat (List (List Char)) :=
  match primary with
  | some _ => .ok (rrEmit g none)
  | none =>
    match cigarsOf g with
    | .error c => .error c
    | .ok _ => .ok (rrEmit g (some 0))

namespace RR

/-- Group-reading state of filter_reverse_reads.cpp lines 87-91. -/
structure St where
  group : List (List Char)
  primary : Option Nat
  modification : Bool

/-- Processing of one line of a multi-alignment group
(filter_reverse_reads.cpp lines 92-99 and 102-109): a reverse-strand (or
column-deficient) line is left out and records a modification; a kept
line may update the primary index before being appended.  `none` models
the `std::stoull` exception on an unparsable FLAG field. -/
def step (st : St) (line : List Char) : Option St :=
  match check_flag line 16 with
  | none => none
  | some true =>
    some { group := st.group ++ [line]
           primary := if primT line then some st.group.length else st.primary
           modification := st.modification }
  | some false => some { st with modification := true }

/-- Read the `n` lines of a group from the input (the first group line
followed by the `count - 1` loop of lines 100-114); end of input inside
the group is exit code 17. -/
def collect (st : St) : Nat → List (List Char) → Except Halt St
  | 0, _ => .ok st
  | _+1, [] => .error (Halt.code 17)
  | n+1, line :: rest =>
    match step st line with
    | none => .error Halt.exc
    | some st2 => collect st2 n rest

/-- Handle one multi-alignment group whose first line is `line`: process
the first line (lines 92-99), read the `count - 1` further lines (lines
100-114), then either re-emit the group verbatim (no modification) or
rewrite it (lines 116-173). -/
def groupRun (count : Nat) (line : List Char) (rest : List (List Char)) : Except Halt (List (List Char)) :=
  match step ⟨[], none, false⟩ line with
  | none => .error Halt.exc
  | some st0 =>
    match collect st0 (count - 1) rest with
    | .error h => .error h
    | .ok st =>
      if st.modification then
        match rewriteGroup st.group st.primary with
        | .error c => .error (Halt.code c)
        | .ok outs => .ok outs
      else .ok st.group

/-- The per-file `while (std::getline(...))` loop of
filter_reverse_reads.cpp (lines 66-177), as a fueled recursion.  The
fuel-exhausted case is unreachable from `processFile`, which supplies
fuel equal to the number of lines. -/
def fileLoop : Nat → List (List Char) → List (List Char) × Option Halt
  | _, [] => ([], none)
  | 0, _ :: _ => ([], none)
  | fuel+1, line :: rest =>
    if line = [] then fileLoop fuel rest
    else if line.head? = some '@' then
      let r := fileLoop fuel rest
      (line :: r.1, r.2)
    else
      match nhField line with
      | none => fileLoop fuel rest
      | some s =>
        match parseNatPfx s with
        | none => ([], some Halt.exc)
        | some count =>
          if count = 1 then
            match check_flag line 16 with
            | none => ([], some Halt.exc)
            | some true =>
              let r := fileLoop fuel rest
              (line :: r.1, r.2)
            | some false => fileLoop fuel rest
          else
            match groupRun count line rest with
            | .error h => ([], some h)
            | .ok outs =>
              let r := fileLoop fuel (rest.drop (count - 1))
              (outs ++ r.1, r.2)

/-- Output lines and abort status of filter_reverse_reads on one input
file. -/
def processFile (lines : List (List Char)) : List (List Char) × Option Halt :=
  fileLoop lines.length lines

/-- Argument-count handling of filter_reverse_reads.cpp lines 51-60:
`some 0` when the usage text is printed and the process exits 0, `none`
when processing proceeds. -/
def cliExit (argc : Nat) : Option Nat :=
  if argc = 1 ∨ argc % 2 ≠ 1 then some 0 else none

end RR

namespace ST

/-- `extract_transcript_id` of select_transcripts.cpp lines 17-35: the
slice between the second and third tab (the RNAME column), or `""` with
a logged diagnostic when columns are missing. -/
def extract_transcript_id (l : List Char) : List Char :=
  match findAfter l '\t' 0 with
  | none => []
  | some a =>
    match findAfter l '\t' (a+1) with
    | none => []
    | some b =>
      match findAfter l '\t' (b+1) with
      | none => []
      | some c => sliceLC l (b+1) c

/-- Does the allow list keep this line? -/
def memT (ids : List (List Char)) (l : List Char) : Bool :=
  ids.contains (extract_transcript_id l)

/-- Group-reading state of select_transcripts.cpp lines 118-120. -/
structure St where
  group : List (List Char)
  primary : Option Nat

/-- Processing of one group line (select_transcripts.cpp lines 121-126
and 129-134): kept iff its transcript id is allow-listed; a kept line
may update the primary index (`primary_flag` may throw: `none`). -/
def step (ids : List (List Char)) (st : St) (line : List Char) : Option St :=
  if memT ids line then
    match check_flag line 256 with
    | none => none
    | some b =>
      some { group := st.group ++ [line]
             primary := if b then some st.group.length else st.primary }
  else some st

/-- Read the `n` lines of a group; end of input inside the group is exit
code 17 (select_transcripts.cpp lines 127-139). -/
def collect (ids : List (List Char)) (st : St) : Nat → List (List Char) → Except Halt St
  | 0, _ => .ok st
  | _+1, [] => .error (Halt.code 17)
  | n+1, line :: rest =>
    match step ids st line with
    | none => .error Halt.exc
    | some st2 => collect ids st2 n rest

/-- Handle one multi-alignment group (select_transcripts.cpp lines
116-199): process the first line, read the `count - 1` further lines,
then emit verbatim when every line survived and rewrite otherwise. -/
def groupRun (ids : List (List Char)) (count : Nat) (line : List Char) (rest : List (List Char)) : Except Halt (List (List Char)) :=
  match step ids ⟨[], none⟩ line with
  | none => .error Halt.exc
  | some st0 =>
    match collect ids st0 (count - 1) rest with
    | .error h => .error h
    | .ok st =>
      if st.group.length = count then .ok st.group
      else
        match rewriteGroup st.group st.primary with
        | .error c => .error (Halt.code c)
        | .ok outs => .ok outs

/-- `"@SQ\t"`. -/
def sqTagL : List Char := ['@', 'S', 'Q', '\t']

/-- `"\tSN:"`. -/
def snTagL : List Char := ['\t', 'S', 'N', ':']

/-- The sequence name of an `@SQ` header line: text after the first
`"\tSN:"` up to the next tab or end of line (select_transcripts.cpp
lines 88-95). -/
def snField (l : List Char) : Option (List Char) :=
  match findSubAt l snTagL with
  | none => none
  | some p =>
    let a := p + 4
    match findAfter l '\t' a with
    | none => some (l.drop a)
    | some b => some (sliceLC l a b)

/-- Header-line handling of select_transcripts.cpp lines 86-100: an
`@SQ` line is kept only when its SN name is allow-listed (and dropped,
with a diagnostic, when the SN field is missing); any other header line
passes through. -/
def headerOut (ids : List (List Char)) (line : List Char) : List (List Char) :=
  if startsW sqTagL line then
    match snField line with
    | none => []
    | some name => if ids.contains name then [line] else []
  else [line]

/-- The per-file loop of select_transcripts.cpp (lines 82-202), fueled. -/
def fileLoop (ids : List (List Char)) : Nat → List (List Char) → List (List Char) × Option Halt
  | _, [] => ([], none)
  | 0, _ :: _ => ([], none)
  | fuel+1, line :: rest =>
    if line = [] then fileLoop ids fuel rest
    else if line.head? = some '@' then
      let r := fileLoop ids fuel rest
      (headerOut ids line ++ r.1, r.2)
    else
      match nhField line with
      | none => fileLoop ids fuel rest
      | some s =>
        match parseNatPfx s with
        | none => ([], some Halt.exc)
        | some count =>
          if count = 1 then
            if memT ids line then
              let r := fileLoop ids fuel rest
              (line :: r.1, r.2)
            else fileLoop ids fuel rest
          else
            match groupRun ids count line rest with
            | .error h => ([], some h)
            | .ok outs =>
              let r := fileLoop ids fuel (rest.drop (count - 1))
              (outs ++ r.1, r.2)

/-- Output lines and abort status of select_transcripts on one input
file, given the allow-listed transcript ids. -/
def processFile (ids : List (List Char)) (lines : List (List Char)) : List (List Char) × Option Halt :=
  fileLoop ids lines.length lines

/-- Argument-count handling of select_transcripts.cpp lines 59-67. -/
def cliExit (argc : Nat) : Option Nat :=
  if argc < 4 ∨ argc % 2 ≠ 0 then some 0 else none

end ST

namespace AG

/-- `extract_transcript_id` of filter_ambiguous_genes.cpp lines 17-34:
the slice between the second and third tab (the RNAME column), or `""`
on missing columns. -/
def extract_transcript_id (l : List Char) : List Char :=
  match findAfter l '\t' 0 with
  | none => []
  | some a =>
    match findAfter l '\t' (a+1) with
    | none => []
    | some b =>
      match findAfter l '\t' (b+1) with
      | none => []
      | some c => sliceLC l (b+1) c

/-- The transcript → gene lookup table (`std::map`), modelled as an
association list with unique keys queried by `find?`. -/
def lookup (tg : List (List Char × List Char)) (key : List Char) : Option (List Char) :=
  (tg.find? (fun p => p.1 == key)).map (fun p => p.2)

/-- The group loop of filter_ambiguous_genes.cpp lines 113-130: for each
further line, end of input is exit 17, an unknown transcript id is exit
7, a line whose gene matches the first line's gene `g0` is appended, and
a mismatch clears the accumulated group (later matches re-accumulate,
but the group can then never reach full size). -/
def collect (tg : List (List Char × List Char)) (g0 : List Char) : List (List Char) → Nat → List (List Char) → Except Halt (List (List Char))
  | group, 0, _ => .ok group
  | _, _+1, [] => .error (Halt.code 17)
  | group, n+1, line :: rest =>
    match lookup tg (extract_transcript_id line) with
    | none => .error (Halt.code 7)
    | some g => collect tg g0 (if g0 == g then group ++ [line] else []) n rest

/-- Handle one multi-alignment group (filter_ambiguous_genes.cpp lines
101-137): an unknown id on the first line is exit 6; the group is
emitted verbatim iff it was collected completely. -/
def groupRun (tg : List (List Char × List Char)) (count : Nat) (line : List Char) (rest : List (List Char)) : Except Halt (List (List Char)) :=
  match lookup tg (extract_transcript_id line) with
  | none => .error (Halt.code 6)
  | some g0 =>
    match collect tg g0 [line] (count - 1) rest with
    | .error h => .error h
    | .ok group => .ok (if group.length = count then group else [])

/-- The per-file loop of filter_ambiguous_genes.cpp (lines 85-140),
fueled. -/
def fileLoop (tg : List (List Char × List Char)) : Nat → List (List Char) → List (List Char) × Option Halt
  | _, [] => ([], none)
  | 0, _ :: _ => ([], none)
  | fuel+1, line :: rest =>
    if line = [] then fileLoop tg fuel rest
    else if line.head? = some '@' then
      let r := fileLoop tg fuel rest
      (line :: r.1, r.2)
    else
      match nhField line with
      | none => fileLoop tg fuel rest
      | some s =>
        match parseNatPfx s with
        | none => ([], some Halt.exc)
        | some count =>
          if count = 1 then
            let r := fileLoop tg fuel rest
            (line :: r.1, r.2)
          else
            match groupRun tg count line rest with
            | .error h => ([], some h)
            | .ok outs =>
              let r := fileLoop tg fuel (rest.drop (count - 1))
              (outs ++ r.1, r.2)

/-- Output lines and abort status of filter_ambiguous_genes on one input
file, given the transcript → gene table. -/
def processFile (tg : List (List Char × List Char)) (lines : List (List Char)) : List (List Char) × Option Halt :=
  fileLoop tg lines.length lines

/-- Argument-count handling of filter_ambiguous_genes.cpp lines 37-46. -/
def cliExit (argc : Nat) : Option Nat :=
  if argc = 1 ∨ argc % 2 ≠ 0 then some 0 else none

end AG

/-- Index (0-based) of the last list element satisfying `primT`, starting
the count at `base` and defaulting to `cur`: the evolution of the
`primary` variable over the kept lines of a group. -/
def lastPrimFrom (base : Nat) (cur : Option Nat) : List (List Char) → Option Nat
  | [] => cur
  | l :: ls => lastPrimFrom (base+1) (if primT l then some base else cur) ls

/-- The lines of a multi-alignment group: its first line plus the
`count - 1` following input lines. -/
def grpOf (count : Nat) (line : List Char) (rest : List (List Char)) : List (List Char) :=
  line :: rest.take (count - 1)

/-- Is the secondary-alignment bit (256) clear in the FLAG column
(second tab-delimited field) of the line?  `false` when the field is
missing or does not parse. -/
def clear256 (l : List Char) : Bool :=
  match parseNatPfx ((splitTabs l).getD 1 []) with
  | none => false
  | some v => v &&& 256 == 0

/-! ### Basic facts about the decimal printer and parser -/

theorem isDig_dChar (d : Nat) : isDig (dChar d) = true := by
  unfold dChar
  split <;> decide

theorem dChar_ne_tab (d : Nat) : dChar d ≠ '\t' := by
  unfold dChar
  split <;> decide

theorem digVal_dChar (d : Nat) (h : d < 10) : digVal (dChar d) = d := by
  interval_cases d <;> decide

theorem valOfDigs_append_one (xs : List Char) (c : Char) :
    valOfDigs (xs ++ [c]) = 10 * valOfDigs xs + digVal c := by
  simp [valOfDigs, List.foldl_append]

theorem natCharsF_spec : ∀ fuel n, n < fuel →
    natCharsF fuel n ≠ [] ∧ (∀ c ∈ natCharsF fuel n, isDig c = true ∧ c ≠ '\t') ∧
      valOfDigs (natCharsF fuel n) = n := by
  intro fuel
  induction fuel with
  | zero => intro n h; omega
  | succ f ih =>
    intro n h
    by_cases h10 : n < 10
    · simp only [natCharsF, if_pos h10]
      refine ⟨by simp, ?_, ?_⟩
      · intro c hc
        simp only [List.mem_singleton] at hc
        subst hc
        exact ⟨isDig_dChar n, dChar_ne_tab n⟩
      · simp [valOfDigs, digVal_dChar n h10]
    · have hd : n / 10 < f := by
        have h1 : n / 10 < n := Nat.div_lt_self (by omega) (by omega)
        omega
      obtain ⟨hne, hmem, hval⟩ := ih (n / 10) hd
      simp only [natCharsF, if_neg h10]
      refine ⟨by simp [hne], ?_, ?_⟩
      · intro c hc
        rcases List.mem_append.mp hc with hc | hc
        · exact hmem c hc
        · simp only [List.mem_singleton] at hc
          subst hc
          exact ⟨isDig_dChar _, dChar_ne_tab _⟩
      · rw [valOfDigs_append_one, hval, digVal_dChar _ (Nat.mod_lt n (by omega))]
        omega

theorem natChars_ne_nil (n : Nat) : natChars n ≠ [] :=
  (natCharsF_spec (n+1) n (by omega)).1

theorem natChars_digits (n : Nat) : ∀ c ∈ natChars n, isDig c = true :=
  fun c hc => ((natCharsF_spec (n+1) n (by omega)).2.1 c hc).1

theorem natChars_no_tab (n : Nat) : '\t' ∉ natChars n := by
  intro h
  exact ((natCharsF_spec (n+1) n (by omega)).2.1 _ h).2 rfl

theorem valOfDigs_natChars (n : Nat) : valOfDigs (natChars n) = n :=
  (natCharsF_spec (n+1) n (by omega)).2.2

theorem takeWhile_eq_self_of_all {l : List Char} (h : ∀ c ∈ l, isDig c = true) :
    l.takeWhile isDig = l := by
  induction l with
  | nil => rfl
  | cons c cs ih =>
    rw [List.takeWhile_cons, if_pos (h c (by simp))]
    rw [ih (fun x hx => h x (by simp [hx]))]

theorem parseNatPfx_natChars (n : Nat) : parseNatPfx (natChars n) = some n := by
  unfold parseNatPfx
  rw [takeWhile_eq_self_of_all (natChars_digits n)]
  cases h : natChars n with
  | nil => exact absurd h (natChars_ne_nil n)
  | cons a l =>
    show some (valOfDigs (a :: l)) = some n
    rw [← h, valOfDigs_natChars]

theorem parseNatPfx_eq_none_of_head {l : List Char} {c : Char}
    (hh : l.head? = some c) (hd : isDig c = false) : parseNatPfx l = none := by
  cases l with
  | nil => simp at hh
  | cons a as =>
    simp only [List.head?_cons, Option.some.injEq] at hh
    subst hh
    unfold parseNatPfx
    rw [List.takeWhile_cons, if_neg (by simp [hd])]

theorem head?_of_startsW {c : Char} {p l : List Char}
    (h : startsW (c :: p) l = true) : l.head? = some c := by
  cases l with
  | nil => simp [startsW, List.isPrefixOf] at h
  | cons a as =>
    rw [startsW, List.isPrefixOf_cons₂] at h
    have : c = a := by
      have h1 := (Bool.and_eq_true _ _).mp h |>.1
      exact eq_of_beq h1
    simp [this]

theorem natChars_head_digit {n : Nat} {c : Char}
    (h : (natChars n).head? = some c) : isDig c = true := by
  cases hl : natChars n with
  | nil => exact absurd hl (natChars_ne_nil n)
  | cons a as =>
    rw [hl] at h
    simp only [List.head?_cons, Option.some.injEq] at h
    subst h
    exact natChars_digits n a (by rw [hl]; simp)

theorem startsW_nh_natChars (n : Nat) : startsW nhTagL (natChars n) = false := by
  by_contra h
  have h' : startsW nhTagL (natChars n) = true := by
    revert h; cases startsW nhTagL (natChars n) <;> simp
  have := natChars_head_digit (head?_of_startsW h')
  simp [isDig] at this

theorem startsW_hi_natChars (n : Nat) : startsW hiTagL (natChars n) = false := by
  by_contra h
  have h' : startsW hiTagL (natChars n) = true := by
    revert h; cases startsW hiTagL (natChars n) <;> simp
  have := natChars_head_digit (head?_of_startsW h')
  simp [isDig] at this

theorem parseNatPfx_none_of_startsW_nh {l : List Char}
    (h : startsW nhTagL l = true) : parseNatPfx l = none :=
  parseNatPfx_eq_none_of_head (head?_of_startsW h) (by decide)

theorem parseNatPfx_none_of_startsW_hi {l : List Char}
    (h : startsW hiTagL l = true) : parseNatPfx l = none :=
  parseNatPfx_eq_none_of_head (head?_of_startsW h) (by decide)

/-! ### Facts about `splitTabs`, `joinTabs`, `cppFields`, `findAfter` -/

theorem splitTabs_ne_nil : ∀ l, splitTabs l ≠ [] := by
  intro l
  induction l with
  | nil => simp [splitTabs]
  | cons c cs ih =>
    unfold splitTabs
    by_cases h : c = '\t'
    · simp [h]
    · rw [if_neg h]
      cases hs : splitTabs cs with
      | nil => simp
      | cons f fs => simp

theorem mem_splitTabs_no_tab : ∀ l f, f ∈ splitTabs l → '\t' ∉ f := by
  intro l
  induction l with
  | nil =>
    intro f hf
    simp only [splitTabs, List.mem_singleton] at hf
    subst hf; simp
  | cons c cs ih =>
    intro f hf
    unfold splitTabs at hf
    by_cases h : c = '\t'
    · rw [if_pos h] at hf
      rcases List.mem_cons.mp hf with hf | hf
      · subst hf; simp
      · exact ih f hf
    · rw [if_neg h] at hf
      cases hs : splitTabs cs with
      | nil => exact absurd hs (splitTabs_ne_nil cs)
      | cons g gs =>
        rw [hs] at hf
        rcases List.mem_cons.mp hf with hf | hf
        · subst hf
          intro hmem
          rcases List.mem_cons.mp hmem with hc | hc
          · exact h hc.symm
          · exact ih g (by rw [hs]; simp) hc
        · exact ih f (by rw [hs]; simp [hf])

theorem splitTabs_no_tab {l : List Char} (h : '\t' ∉ l) : splitTabs l = [l] := by
  induction l with
  | nil => rfl
  | cons c cs ih =>
    have hc : c ≠ '\t' := fun hc => h (by simp [hc])
    have hcs : '\t' ∉ cs := fun hm => h (by simp [hm])
    unfold splitTabs
    rw [if_neg hc, ih hcs]

theorem splitTabs_cons_tab (cs : List Char) : splitTabs ('\t' :: cs) = [] :: splitTabs cs := by
  simp [splitTabs]

theorem splitTabs_cons_ne {c : Char} (cs : List Char) (h : c ≠ '\t') :
    splitTabs (c :: cs) = (c :: (splitTabs cs).headD []) :: (splitTabs cs).tail := by
  have he : splitTabs (c :: cs) =
      if c = '\t' then [] :: splitTabs cs
      else
        match splitTabs cs with
        | [] => [[c]]
        | f :: fs => (c :: f) :: fs := rfl
  rw [he, if_neg h]
  cases hs : splitTabs cs with
  | nil => exact absurd hs (splitTabs_ne_nil cs)
  | cons f fs => rfl

theorem splitTabs_append_tab {f : List Char} (r : List Char) (hf : '\t' ∉ f) :
    splitTabs (f ++ '\t' :: r) = f :: splitTabs r := by
  induction f with
  | nil => simp [splitTabs]
  | cons c cs ih =>
    have hc : c ≠ '\t' := fun hc => hf (by simp [hc])
    have hcs : '\t' ∉ cs := fun hm => hf (by simp [hm])
    simp only [List.cons_append]
    rw [splitTabs_cons_ne _ hc, ih hcs]
    rfl

theorem splitTabs_joinTabs : ∀ fl : List (List Char), fl ≠ [] →
    (∀ f ∈ fl, '\t' ∉ f) → splitTabs (joinTabs fl) = fl := by
  intro fl
  induction fl with
  | nil => intro h; exact absurd rfl h
  | cons f fs ih =>
    intro _ hmem
    cases fs with
    | nil =>
      show splitTabs (joinTabs [f]) = [f]
      simp only [joinTabs]
      exact splitTabs_no_tab (hmem f (by simp))
    | cons g gs =>
      show splitTabs (f ++ '\t' :: joinTabs (g :: gs)) = f :: g :: gs
      rw [splitTabs_append_tab _ (hmem f (by simp))]
      rw [ih (by simp) (fun x hx => hmem x (by simp [List.mem_cons.mp hx]))]

theorem findAfter_none_iff : ∀ (l : List Char) (c : Char),
    findAfter l c 0 = none ↔ c ∉ l := by
  intro l c
  induction l with
  | nil => simp [findAfter]
  | cons x xs ih =>
    unfold findAfter
    by_cases h : x = c
    · simp [h]
    · rw [if_neg h]
      constructor
      · intro hm
        cases hfa : findAfter xs c 0 with
        | none =>
          intro hmem
          rcases List.mem_cons.mp hmem with hc | hc
          · exact h hc.symm
          · exact (ih.mp hfa) hc
        | some i => rw [hfa] at hm; simp at hm
      · intro hmem
        have hx : c ∉ xs := fun hc => hmem (by simp [hc])
        rw [ih.mpr hx]
        rfl

theorem splitTabs_of_findAfter : ∀ (l : List Char) (i : Nat),
    findAfter l '\t' 0 = some i →
    splitTabs l = l.take i :: splitTabs (l.drop (i+1)) := by
  intro l
  induction l with
  | nil => intro i h; simp [findAfter] at h
  | cons c cs ih =>
    intro i h
    unfold findAfter at h
    by_cases hc : c = '\t'
    · rw [if_pos hc] at h
      simp only [Option.some.injEq] at h
      subst h
      subst hc
      simp [splitTabs]
    · rw [if_neg hc] at h
      cases hfa : findAfter cs '\t' 0 with
      | none => rw [hfa] at h; simp at h
      | some j =>
        rw [hfa] at h
        simp only [Option.map_some', Option.some.injEq] at h
        subst h
        have := ih j hfa
        rw [splitTabs_cons_ne _ hc, this]
        simp only [List.headD_cons, List.tail_cons, List.take_succ_cons, List.drop_succ_cons]

theorem findAfter_shift : ∀ (l : List Char) (c : Char) (k : Nat),
    findAfter l c k = (findAfter (l.drop k) c 0).map (· + k) := by
  intro l
  induction l with
  | nil =>
    intro c k
    simp [findAfter]
  | cons x xs ih =>
    intro c k
    cases k with
    | zero =>
      simp only [List.drop_zero]
      cases h : findAfter (x :: xs) c 0 <;> simp
    | succ k =>
      show (findAfter xs c k).map (· + 1) = _
      rw [ih c k]
      simp only [List.drop_succ_cons]
      cases findAfter (xs.drop k) c 0 with
      | none => rfl
      | some j => simp; omega

/-! ### Bridge between position-based FLAG access and the field view -/

theorem flagSlice_spec {l s : List Char} (h : flagSlice l = some s) :
    ∃ f0 rest, splitTabs l = f0 :: s :: rest ∧ rest ≠ [] := by
  unfold flagSlice at h
  split at h
  · exact absurd h (by simp)
  next i h1 =>
    split at h
    · exact absurd h (by simp)
    next j h2 =>
      simp only [Option.some.injEq] at h
      subst h
      have hs1 := splitTabs_of_findAfter l i h1
      rw [findAfter_shift l '\t' (i+1)] at h2
      cases h3 : findAfter (l.drop (i+1)) '\t' 0 with
      | none => rw [h3] at h2; simp at h2
      | some j2 =>
        rw [h3] at h2
        simp only [Option.map_some', Option.some.injEq] at h2
        have hs2 := splitTabs_of_findAfter (l.drop (i+1)) j2 h3
        refine ⟨l.take i, (splitTabs ((l.drop (i+1)).drop (j2+1))), ?_,
          splitTabs_ne_nil _⟩
        rw [hs1, hs2]
        have : sliceLC l (i+1) j = (l.drop (i+1)).take j2 := by
          unfold sliceLC
          have : j - (i+1) = j2 := by omega
          rw [this]
        rw [this]

theorem flagSlice_none_of_no_tab {l : List Char} (h : '\t' ∉ l) : flagSlice l = none := by
  unfold flagSlice
  rw [(findAfter_none_iff l '\t').mpr h]

theorem check_flag_no_tab {l : List Char} (flag : Nat) (h : '\t' ∉ l) :
    check_flag l flag = some false := by
  unfold check_flag
  rw [flagSlice_none_of_no_tab h]

theorem check_flag_some_true {l : List Char} {flag : Nat}
    (h : check_flag l flag = some true) :
    ∃ s v, flagSlice l = some s ∧ parseNatPfx s = some v ∧ v &&& flag = 0 := by
  unfold check_flag at h
  split at h
  · simp at h
  next s h1 =>
    cases h2 : parseNatPfx s with
    | none => rw [h2] at h; simp at h
    | some v =>
      rw [h2] at h
      simp only [Option.map_some', Option.some.injEq] at h
      exact ⟨s, v, h1, h2, beq_iff_eq.mp h⟩

theorem check_flag_some_false {l : List Char} {flag : Nat}
    (h : check_flag l flag = some false) :
    flagSlice l = none ∨
      ∃ s v, flagSlice l = some s ∧ parseNatPfx s = some v ∧ v &&& flag ≠ 0 := by
  unfold check_flag at h
  split at h
  next h1 => exact Or.inl h1
  next s h1 =>
    cases h2 : parseNatPfx s with
    | none => rw [h2] at h; simp at h
    | some v =>
      rw [h2] at h
      simp only [Option.map_some', Option.some.injEq] at h
      refine Or.inr ⟨s, v, h1, h2, ?_⟩
      intro hv
      rw [hv] at h
      simp at h

theorem check_flag_ne_none {l : List Char} {flag : Nat}
    (h : check_flag l flag ≠ none) :
    flagSlice l = none ∨ ∃ s v, flagSlice l = some s ∧ parseNatPfx s = some v := by
  unfold check_flag at h
  split at h
  next h1 => exact Or.inl h1
  next s h1 =>
    cases h2 : parseNatPfx s with
    | none => rw [h2] at h; simp at h
    | some v => exact Or.inr ⟨s, v, h1, h2⟩

/-- The two `check_flag` tests of one line read the same parsed value. -/
theorem check_flag_of_flagSlice {l s : List Char} {v : Nat} (flag : Nat)
    (h1 : flagSlice l = some s) (h2 : parseNatPfx s = some v) :
    check_flag l flag = some (v &&& flag == 0) := by
  unfold check_flag
  rw [h1]
  show Option.map (fun w => w &&& flag == 0) (parseNatPfx s) = some (v &&& flag == 0)
  rw [h2]
  rfl

/-! ### `cppFields` -/

theorem cppFields_mem_splitTabs {l : List Char} : ∀ f ∈ cppFields l, f ∈ splitTabs l := by
  intro f hf
  unfold cppFields at hf
  by_cases h : (splitTabs l).getLast? = some []
  · rw [if_pos h] at hf
    exact List.mem_of_mem_dropLast hf
  · rwa [if_neg h] at hf

theorem cppFields_no_tab {l : List Char} : ∀ f ∈ cppFields l, '\t' ∉ f :=
  fun f hf => mem_splitTabs_no_tab l f (cppFields_mem_splitTabs f hf)

theorem cppFields_getElem? {l : List Char} {j : Nat}
    (h : j + 2 ≤ (splitTabs l).length) : (cppFields l)[j]? = (splitTabs l)[j]? := by
  unfold cppFields
  by_cases hl : (splitTabs l).getLast? = some []
  · rw [if_pos hl]
    rw [List.dropLast_eq_take, List.getElem?_take]
    rw [if_pos (by omega)]
  · rw [if_neg hl]

theorem cppFields_length_ge {l : List Char} (h : 3 ≤ (splitTabs l).length) :
    2 ≤ (cppFields l).length := by
  unfold cppFields
  by_cases hl : (splitTabs l).getLast? = some []
  · rw [if_pos hl, List.length_dropLast]
    omega
  · rw [if_neg hl]
    omega

theorem cppFields_ne_nil {l : List Char} (h : l ≠ []) : cppFields l ≠ [] := by
  cases h1 : findAfter l '\t' 0 with
  | none =>
    have hna : '\t' ∉ l := (findAfter_none_iff l '\t').mp h1
    unfold cppFields
    rw [splitTabs_no_tab hna]
    by_cases he : ([l] : List (List Char)).getLast? = some []
    · simp only [List.getLast?_singleton, Option.some.injEq] at he
      exact absurd he h
    · rw [if_neg he]
      simp
  | some i =>
    have hs := splitTabs_of_findAfter l i h1
    unfold cppFields
    rw [hs]
    by_cases he : (l.take i :: splitTabs (l.drop (i+1))).getLast? = some []
    · rw [if_pos he]
      intro hc
      have : (l.take i :: splitTabs (l.drop (i+1))).length ≤ 1 := by
        have := congrArg List.length hc
        rw [List.length_dropLast] at this
        simp only [List.length_nil] at this
        omega
      simp only [List.length_cons] at this
      have := splitTabs_ne_nil (l.drop (i+1))
      have hlen : 1 ≤ (splitTabs (l.drop (i+1))).length := List.length_pos.mpr this
      omega
    · rw [if_neg he]
      simp

theorem splitTabs_length_of_flagSlice {l s : List Char} (h : flagSlice l = some s) :
    3 ≤ (splitTabs l).length := by
  obtain ⟨f0, rest, hsp, hne⟩ := flagSlice_spec h
  rw [hsp]
  simp only [List.length_cons]
  have := List.length_pos.mpr hne
  omega

theorem cppFields_flagSlice {l s : List Char} (h : flagSlice l = some s) :
    (cppFields l)[1]? = some s := by
  obtain ⟨f0, rest, hsp, hne⟩ := flagSlice_spec h
  rw [cppFields_getElem? (by have := splitTabs_length_of_flagSlice h; omega), hsp]
  simp

/-! ### The rewrite loop -/

theorem rewriteFieldsAux_getElem? (isP : Bool) (mq : List Char) (k hi : Nat) :
    ∀ (fl : List (List Char)) (j0 i : Nat),
      (rewriteFieldsAux isP mq k hi j0 fl)[i]? =
        (fl[i]?).map (fun part => rwField isP mq k hi (j0 + i) part) := by
  intro fl
  induction fl with
  | nil => intro j0 i; simp [rewriteFieldsAux]
  | cons part parts ih =>
    intro j0 i
    cases i with
    | zero => simp [rewriteFieldsAux]
    | succ i =>
      simp only [rewriteFieldsAux, List.getElem?_cons_succ]
      rw [ih (j0+1) i]
      have : j0 + 1 + i = j0 + (i + 1) := by omega
      rw [this]

theorem rewriteFieldsAux_length (isP : Bool) (mq : List Char) (k hi : Nat) :
    ∀ (fl : List (List Char)) (j0 : Nat),
      (rewriteFieldsAux isP mq k hi j0 fl).length = fl.length := by
  intro fl
  induction fl with
  | nil => intro j0; rfl
  | cons part parts ih =>
    intro j0
    show (rewriteFieldsAux isP mq k hi (j0+1) parts).length + 1 = parts.length + 1
    rw [ih]

theorem rewriteFieldsAux_ne_nil (isP : Bool) (mq : List Char) (k hi : Nat)
    {fl : List (List Char)} (h : fl ≠ []) (j0 : Nat) :
    rewriteFieldsAux isP mq k hi j0 fl ≠ [] := by
  intro hc
  have := congrArg List.length hc
  rw [rewriteFieldsAux_length] at this
  simp only [List.length_nil] at this
  exact h (List.length_eq_zero.mp this)

theorem rwField_no_tab {isP : Bool} {mq : List Char} {k hi j : Nat} {part : List Char}
    (hp : '\t' ∉ part) (hmq : '\t' ∉ mq) : '\t' ∉ rwField isP mq k hi j part := by
  unfold rwField
  split_ifs with h1 h2 h3 h4
  · exact natChars_no_tab _
  · exact hmq
  · intro hc
    rcases List.mem_append.mp hc with hc | hc
    · simp [nhTagL] at hc
    · exact natChars_no_tab _ hc
  · intro hc
    rcases List.mem_append.mp hc with hc | hc
    · simp [hiTagL] at hc
    · exact natChars_no_tab _ hc
  · exact hp

theorem rewriteFieldsAux_no_tab {isP : Bool} {mq : List Char} {k hi : Nat}
    {fl : List (List Char)} (h1 : ∀ f ∈ fl, '\t' ∉ f) (h2 : '\t' ∉ mq) :
    ∀ (j0 : Nat) (x : List Char), x ∈ rewriteFieldsAux isP mq k hi j0 fl → '\t' ∉ x := by
  induction fl with
  | nil => intro j0 x hx; simp [rewriteFieldsAux] at hx
  | cons part parts ih =>
    intro j0 x hx
    rcases List.mem_cons.mp hx with hx | hx
    · subst hx
      exact rwField_no_tab (h1 part (by simp)) h2
    · exact ih (fun f hf => h1 f (by simp [hf])) (j0+1) x hx

theorem startsW_append_of_eq {p y : List Char} : startsW p (p ++ y) = true := by
  unfold startsW
  induction p with
  | nil => simp [List.isPrefixOf]
  | cons c cs ih => simp [List.isPrefixOf_cons₂, ih]

theorem rwField_nh {isP : Bool} {mq : List Char} {k hi j : Nat} {part : List Char}
    (hmq : startsW nhTagL mq = false) :
    startsW nhTagL (rwField isP mq k hi j part) = true →
      rwField isP mq k hi j part = nhTagL ++ natChars k := by
  unfold rwField
  split_ifs with h1 h2 h3 h4
  · intro hs; rw [startsW_nh_natChars] at hs; simp at hs
  · intro hs; rw [hmq] at hs; simp at hs
  · intro _; rfl
  · intro hs
    have := head?_of_startsW hs
    simp [hiTagL] at this
  · intro hs
    exact absurd hs h3

theorem rwField_hi {isP : Bool} {mq : List Char} {k hi j : Nat} {part : List Char}
    (hmq : startsW hiTagL mq = false) :
    startsW hiTagL (rwField isP mq k hi j part) = true →
      rwField isP mq k hi j part = hiTagL ++ natChars hi := by
  unfold rwField
  split_ifs with h1 h2 h3 h4
  · intro hs; rw [startsW_hi_natChars] at hs; simp at hs
  · intro hs; rw [hmq] at hs; simp at hs
  · intro hs
    have := head?_of_startsW hs
    simp [nhTagL] at this
  · intro _; rfl
  · intro hs
    exact absurd hs h4

theorem mem_rewriteFieldsAux {isP : Bool} {mq : List Char} {k hi : Nat} :
    ∀ {fl : List (List Char)} {j0 : Nat} {x : List Char},
      x ∈ rewriteFieldsAux isP mq k hi j0 fl →
      ∃ j part, x = rwField isP mq k hi j part := by
  intro fl
  induction fl with
  | nil => intro j0 x hx; simp [rewriteFieldsAux] at hx
  | cons part parts ih =>
    intro j0 x hx
    rcases List.mem_cons.mp hx with hx | hx
    · exact ⟨j0, part, hx⟩
    · exact ih hx

theorem flagSlice_ne_nil {l s : List Char} (h : flagSlice l = some s) : l ≠ [] := by
  intro hc
  subst hc
  simp [flagSlice, findAfter] at h

theorem splitTabs_rewriteLine {isP : Bool} {mq : List Char} {k hi : Nat} {l : List Char}
    (hl : l ≠ []) (hmq : '\t' ∉ mq) :
    splitTabs (rewriteLine isP mq k hi l) = rewriteFieldsAux isP mq k hi 0 (cppFields l) := by
  unfold rewriteLine
  exact splitTabs_joinTabs _
    (rewriteFieldsAux_ne_nil isP mq k hi (cppFields_ne_nil hl) 0)
    (fun x hx => rewriteFieldsAux_no_tab cppFields_no_tab hmq 0 x hx)

theorem rewriteLine_nh_fields {isP : Bool} {mq : List Char} {k hi : Nat} {l : List Char}
    (hl : l ≠ []) (hmq : '\t' ∉ mq) (hmq2 : startsW nhTagL mq = false) :
    ∀ fld ∈ splitTabs (rewriteLine isP mq k hi l),
      startsW nhTagL fld = true → fld = nhTagL ++ natChars k := by
  intro fld hf hs
  rw [splitTabs_rewriteLine hl hmq] at hf
  obtain ⟨j, part, hj⟩ := mem_rewriteFieldsAux hf
  subst hj
  exact rwField_nh hmq2 hs

theorem rewriteLine_hi_fields {isP : Bool} {mq : List Char} {k hi : Nat} {l : List Char}
    (hl : l ≠ []) (hmq : '\t' ∉ mq) (hmq2 : startsW hiTagL mq = false) :
    ∀ fld ∈ splitTabs (rewriteLine isP mq k hi l),
      startsW hiTagL fld = true → fld = hiTagL ++ natChars hi := by
  intro fld hf hs
  rw [splitTabs_rewriteLine hl hmq] at hf
  obtain ⟨j, part, hj⟩ := mem_rewriteFieldsAux hf
  subst hj
  exact rwField_hi hmq2 hs

theorem rwField_mapq (isP : Bool) (mq : List Char) (k hi : Nat) (part : List Char) :
    rwField isP mq k hi 4 part = mq := by
  unfold rwField
  simp

theorem rwField_flag_set {mq : List Char} {k hi : Nat} {s : List Char} {v : Nat}
    (h : parseNatPfx s = some v) :
    rwField true mq k hi 1 s = natChars (v ^^^ 256) := by
  unfold rwField
  rw [if_pos (by simp)]
  rw [h]
  rfl

theorem rwField_flag_keep {mq : List Char} {k hi : Nat} {s : List Char} {v : Nat}
    (h : parseNatPfx s = some v) :
    rwField false mq k hi 1 s = s := by
  unfold rwField
  rw [if_neg (by simp)]
  rw [if_neg (by omega)]
  rw [if_neg, if_neg]
  · intro hs
    rw [parseNatPfx_none_of_startsW_hi hs] at h
    simp at h
  · intro hs
    rw [parseNatPfx_none_of_startsW_nh hs] at h
    simp at h

theorem rewriteLine_mapq_field {isP : Bool} {mq : List Char} {k hi : Nat} {l : List Char}
    (hl : l ≠ []) (hmq : '\t' ∉ mq) (h5 : 5 ≤ (cppFields l).length) :
    (splitTabs (rewriteLine isP mq k hi l))[4]? = some mq := by
  rw [splitTabs_rewriteLine hl hmq]
  rw [rewriteFieldsAux_getElem?]
  cases hp : (cppFields l)[4]? with
  | none =>
    rw [List.getElem?_eq_none_iff] at hp
    omega
  | some part =>
    simp only [Option.map_some']
    rw [show (0 + 4 : Nat) = 4 from rfl, rwField_mapq]

theorem rewriteLine_flag_field {isP : Bool} {mq : List Char} {k hi : Nat}
    {l s : List Char} {v : Nat}
    (hfs : flagSlice l = some s) (hv : parseNatPfx s = some v) (hmq : '\t' ∉ mq) :
    (splitTabs (rewriteLine isP mq k hi l))[1]? =
      some (if isP then natChars (v ^^^ 256) else s) := by
  rw [splitTabs_rewriteLine (flagSlice_ne_nil hfs) hmq]
  rw [rewriteFieldsAux_getElem?]
  rw [cppFields_flagSlice hfs]
  simp only [Option.map_some']
  cases isP with
  | true => rw [show (0 + 1 : Nat) = 1 from rfl, rwField_flag_set hv]; rfl
  | false => rw [show (0 + 1 : Nat) = 1 from rfl, rwField_flag_keep hv]; rfl

/-! ### `rrEmit` -/

theorem rrEmitAux_getElem? (mq : List Char) (k : Nat) (p : Option Nat) :
    ∀ (g : List (List Char)) (i0 i : Nat),
      (rrEmitAux mq k p i0 g)[i]? =
        (g[i]?).map (fun l => rewriteLine (p == some (i0 + i)) mq k (i0 + i + 1) l) := by
  intro g
  induction g with
  | nil => intro i0 i; simp [rrEmitAux]
  | cons l ls ih =>
    intro i0 i
    cases i with
    | zero => simp [rrEmitAux]
    | succ i =>
      simp only [rrEmitAux, List.getElem?_cons_succ]
      rw [ih (i0+1) i]
      have : i0 + 1 + i = i0 + (i + 1) := by omega
      rw [this]

theorem rrEmitAux_length (mq : List Char) (k : Nat) (p : Option Nat) :
    ∀ (g : List (List Char)) (i0 : Nat), (rrEmitAux mq k p i0 g).length = g.length := by
  intro g
  induction g with
  | nil => intro i0; rfl
  | cons l ls ih =>
    intro i0
    show (rrEmitAux mq k p (i0+1) ls).length + 1 = ls.length + 1
    rw [ih]

theorem rrEmit_length (g : List (List Char)) (p : Option Nat) :
    (rrEmit g p).length = g.length := rrEmitAux_length _ _ _ g 0

theorem rrEmit_getElem? (g : List (List Char)) (p : Option Nat) (i : Nat) :
    (rrEmit g p)[i]? =
      (g[i]?).map (fun l =>
        rewriteLine (p == some i) (natChars (mapqVal g.length)) g.length (i + 1) l) := by
  unfold rrEmit
  rw [rrEmitAux_getElem?]
  simp

theorem rewriteGroup_ok_some {g : List (List Char)} {j : Nat} {outs : List (List Char)}
    (h : rewriteGroup g (some j) = .ok outs) : outs = rrEmit g none := by
  unfold rewriteGroup at h
  simp only [Except.ok.injEq] at h
  exact h.symm

theorem rewriteGroup_ok_none {g outs : List (List Char)}
    (h : rewriteGroup g none = .ok outs) : outs = rrEmit g (some 0) := by
  unfold rewriteGroup at h
  cases hc : cigarsOf g with
  | error c => rw [hc] at h; simp at h
  | ok cgs =>
    rw [hc] at h
    simp only [Except.ok.injEq] at h
    exact h.symm

theorem rewriteGroup_ok_cases {g : List (List Char)} {p : Option Nat}
    {outs : List (List Char)} (h : rewriteGroup g p = .ok outs) :
    ∃ q, outs = rrEmit g q ∧ ((p = none ∧ q = some 0) ∨ (p ≠ none ∧ q = none)) := by
  cases p with
  | none => exact ⟨some 0, rewriteGroup_ok_none h, Or.inl ⟨rfl, rfl⟩⟩
  | some j => exact ⟨none, rewriteGroup_ok_some h, Or.inr ⟨by simp, rfl⟩⟩

/-! ### The mapping-quality value -/

theorem lf10_spec : ∀ fuel n, 1 ≤ n → n ≤ fuel →
    10 ^ lf10 fuel n ≤ n ∧ n < 10 ^ (lf10 fuel n + 1) := by
  intro fuel
  induction fuel with
  | zero => intro n h1 h2; omega
  | succ f ih =>
    intro n h1 h2
    by_cases h10 : n < 10
    · simp only [lf10, if_pos h10]
      constructor
      · simpa using h1
      · simpa using h10
    · simp only [lf10, if_neg h10]
      have hd1 : 1 ≤ n / 10 := by
        rw [Nat.le_div_iff_mul_le (by omega)]
        omega
      have hd2 : n / 10 ≤ f := by
        have : n / 10 < n := Nat.div_lt_self (by omega) (by omega)
        omega
      obtain ⟨ha, hb⟩ := ih (n / 10) hd1 hd2
      constructor
      · calc 10 ^ (lf10 f (n / 10) + 1) = 10 ^ lf10 f (n / 10) * 10 := by ring
        _ ≤ n / 10 * 10 := by omega
        _ ≤ n := Nat.div_mul_le_self n 10
      · have : n < 10 ^ (lf10 f (n / 10) + 1) * 10 :=
          (Nat.div_lt_iff_lt_mul (by omega)).mp hb
        calc n < 10 ^ (lf10 f (n / 10) + 1) * 10 := this
        _ = 10 ^ (lf10 f (n / 10) + 1 + 1) := by ring

theorem logFloor10_spec (n : Nat) (h : 1 ≤ n) :
    10 ^ logFloor10 n ≤ n ∧ n < 10 ^ (logFloor10 n + 1) :=
  lf10_spec n n h le_rfl

/-- For `k ≥ 2` survivors, the integer model of the mapping quality equals
the floor (= truncating cast of a nonnegative value) of the exact real
`-10·log₁₀(1 - 1/k)`. -/
theorem mapqVal_eq_floor (k : Nat) (hk : 2 ≤ k) :
    (mapqVal k : ℤ) = ⌊(-10 : ℝ) * Real.logb 10 (1 - 1 / (k : ℝ))⌋ := by
  have hk0 : (0 : ℝ) < (k : ℝ) := by exact_mod_cast (by omega : 0 < k)
  have hk2 : (2 : ℝ) ≤ (k : ℝ) := by exact_mod_cast hk
  have hkm1 : (1 : ℝ) ≤ (k : ℝ) - 1 := by linarith
  have hB : 1 ≤ (k - 1) ^ 10 := Nat.one_le_pow _ _ (by omega)
  have hBA : (k - 1) ^ 10 ≤ k ^ 10 := Nat.pow_le_pow_left (by omega) 10
  have hq1 : 1 ≤ k ^ 10 / (k - 1) ^ 10 := (Nat.one_le_div_iff (by omega)).mpr hBA
  have hm := logFloor10_spec (k ^ 10 / (k - 1) ^ 10) hq1
  set m := logFloor10 (k ^ 10 / (k - 1) ^ 10) with hmdef
  have h1' : 10 ^ m * (k - 1) ^ 10 ≤ k ^ 10 := (Nat.le_div_iff_mul_le (by omega)).mp hm.1
  have h2' : k ^ 10 < 10 ^ (m + 1) * (k - 1) ^ 10 :=
    (Nat.div_lt_iff_lt_mul (by omega)).mp hm.2
  have hBr : (0 : ℝ) < (((k - 1) ^ 10 : Nat) : ℝ) := by
    have : 0 < (k - 1) ^ 10 := by omega
    exact_mod_cast this
  have hcast : (((k - 1) ^ 10 : Nat) : ℝ) = ((k : ℝ) - 1) ^ 10 := by
    push_cast [Nat.cast_sub (by omega : 1 ≤ k)]
    ring
  have hx : ((k ^ 10 : Nat) : ℝ) / (((k - 1) ^ 10 : Nat) : ℝ) =
      ((k : ℝ) / ((k : ℝ) - 1)) ^ (10 : ℕ) := by
    rw [div_pow, hcast]
    push_cast
    ring_nf
  have hr1 : (10 : ℝ) ^ m ≤ ((k : ℝ) / ((k : ℝ) - 1)) ^ (10 : ℕ) := by
    rw [← hx, le_div_iff₀ hBr]
    exact_mod_cast h1'
  have hr2 : ((k : ℝ) / ((k : ℝ) - 1)) ^ (10 : ℕ) < (10 : ℝ) ^ (m + 1) := by
    rw [← hx, div_lt_iff₀ hBr]
    exact_mod_cast h2'
  have hxpos : (0 : ℝ) < (k : ℝ) / ((k : ℝ) - 1) := div_pos hk0 (by linarith)
  have hypos : (0 : ℝ) < ((k : ℝ) / ((k : ℝ) - 1)) ^ (10 : ℕ) := pow_pos hxpos 10
  have hl1 : (m : ℝ) ≤ Real.logb 10 (((k : ℝ) / ((k : ℝ) - 1)) ^ (10 : ℕ)) := by
    rw [Real.le_logb_iff_rpow_le (by norm_num) hypos]
    rw [Real.rpow_natCast]
    exact hr1
  have hl2 : Real.logb 10 (((k : ℝ) / ((k : ℝ) - 1)) ^ (10 : ℕ)) < (m : ℝ) + 1 := by
    rw [Real.logb_lt_iff_lt_rpow (by norm_num) hypos]
    have : ((m : ℝ) + 1) = (((m + 1 : ℕ)) : ℝ) := by push_cast; ring
    rw [this, Real.rpow_natCast]
    exact hr2
  have hlp : Real.logb 10 (((k : ℝ) / ((k : ℝ) - 1)) ^ (10 : ℕ)) =
      10 * Real.logb 10 ((k : ℝ) / ((k : ℝ) - 1)) := by
    rw [Real.logb_pow]
    norm_num
  have htgt : (-10 : ℝ) * Real.logb 10 (1 - 1 / (k : ℝ)) =
      10 * Real.logb 10 ((k : ℝ) / ((k : ℝ) - 1)) := by
    have h1k : 1 - 1 / (k : ℝ) = ((k : ℝ) - 1) / (k : ℝ) := by
      field_simp
    rw [h1k]
    have h2k : ((k : ℝ) - 1) / (k : ℝ) = ((k : ℝ) / ((k : ℝ) - 1))⁻¹ := by
      rw [inv_div]
    rw [h2k, Real.logb_inv]
    ring
  have hmv : mapqVal k = m := by
    unfold mapqVal
    rw [if_neg (by omega)]
  rw [hmv, htgt]
  symm
  rw [Int.floor_eq_iff]
  constructor
  · push_cast
    rw [← hlp]
    exact hl1
  · push_cast
    rw [← hlp]
    exact hl2

/-! ### The `primary` index variable -/

theorem lastPrimFrom_none_iff : ∀ (g : List (List Char)) (base : Nat) (cur : Option Nat),
    lastPrimFrom base cur g = none ↔ cur = none ∧ ∀ l ∈ g, primT l = false := by
  intro g
  induction g with
  | nil =>
    intro base cur
    simp [lastPrimFrom]
  | cons l ls ih =>
    intro base cur
    show lastPrimFrom (base+1) (if primT l then some base else cur) ls = none ↔ _
    rw [ih]
    by_cases hp : primT l
    · rw [if_pos hp]
      simp [hp]
    · rw [if_neg hp]
      constructor
      · rintro ⟨h1, h2⟩
        refine ⟨h1, ?_⟩
        intro x hx
        rcases List.mem_cons.mp hx with hx | hx
        · subst hx
          simpa using hp
        · exact h2 x hx
      · rintro ⟨h1, h2⟩
        exact ⟨h1, fun x hx => h2 x (by simp [hx])⟩

theorem lastPrimFrom_some : ∀ (g : List (List Char)) (base : Nat) (cur : Option Nat) (j : Nat),
    lastPrimFrom base cur g = some j →
    cur = some j ∨ ∃ i, ∃ h : i < g.length, primT (g.get ⟨i, h⟩) = true := by
  intro g
  induction g with
  | nil =>
    intro base cur j h
    exact Or.inl h
  | cons l ls ih =>
    intro base cur j h
    have h' : lastPrimFrom (base+1) (if primT l then some base else cur) ls = some j := h
    rcases ih (base+1) _ j h' with hcur | ⟨i, hi, hp⟩
    · by_cases hp : primT l
      · exact Or.inr ⟨0, by simp, hp⟩
      · rw [if_neg hp] at hcur
        exact Or.inl hcur
    · exact Or.inr ⟨i+1, by simpa using Nat.succ_lt_succ hi, by simpa using hp⟩

theorem lastPrimFrom_isSome_of_mem {g : List (List Char)} {x : List Char}
    (hx : x ∈ g) (hp : primT x = true) :
    ∀ (base : Nat) (cur : Option Nat), lastPrimFrom base cur g ≠ none := by
  intro base cur h
  rw [lastPrimFrom_none_iff] at h
  rw [h.2 x hx] at hp
  simp at hp

/-! ### The reverse-strand group collector -/

theorem fwdT_true_iff {x : List Char} : fwdT x = true ↔ check_flag x 16 = some true := by
  unfold fwdT
  constructor
  · intro h; exact eq_of_beq h
  · intro h; rw [h]; rfl

theorem primT_true_iff {x : List Char} : primT x = true ↔ check_flag x 256 = some true := by
  unfold primT
  constructor
  · intro h; exact eq_of_beq h
  · intro h; rw [h]; rfl

theorem RR_collect_spec : ∀ (n : Nat) (ls : List (List Char)) (st st2 : RR.St),
    RR.collect st n ls = .ok st2 →
    n ≤ ls.length ∧
    (∀ x ∈ ls.take n, check_flag x 16 ≠ none) ∧
    st2.group = st.group ++ (ls.take n).filter fwdT ∧
    st2.modification =
      (st.modification || (ls.take n).any (fun x => check_flag x 16 == some false)) ∧
    st2.primary = lastPrimFrom st.group.length st.primary ((ls.take n).filter fwdT) := by
  intro n
  induction n with
  | zero =>
    intro ls st st2 h
    have h2 : st = st2 := by
      have : (Except.ok st : Except Halt RR.St) = .ok st2 := h
      simpa using this
    subst h2
    refine ⟨by omega, by simp, by simp, by simp, by simp [lastPrimFrom]⟩
  | succ n ih =>
    intro ls st st2 h
    cases ls with
    | nil =>
      have : (Except.error (Halt.code 17) : Except Halt RR.St) = .ok st2 := h
      simp at this
    | cons x xs =>
      unfold RR.collect at h
      cases hcf : check_flag x 16 with
      | none =>
        have hst : RR.step st x = none := by
          unfold RR.step
          rw [hcf]
        rw [hst] at h
        have : (Except.error Halt.exc : Except Halt RR.St) = .ok st2 := h
        simp at this
      | some b =>
        cases b with
        | true =>
          have hst : RR.step st x = some
              { group := st.group ++ [x]
                primary := if primT x then some st.group.length else st.primary
                modification := st.modification } := by
            unfold RR.step
            rw [hcf]
          rw [hst] at h
          have h2 : RR.collect
              { group := st.group ++ [x]
                primary := if primT x then some st.group.length else st.primary
                modification := st.modification } n xs = .ok st2 := h
          obtain ⟨hlen, hmem, hgr, hmod, hpr⟩ := ih xs _ st2 h2
          have hfwd : fwdT x = true := fwdT_true_iff.mpr hcf
          refine ⟨by simpa using Nat.succ_le_succ hlen, ?_, ?_, ?_, ?_⟩
          · intro y hy
            rw [List.take_succ_cons] at hy
            rcases List.mem_cons.mp hy with hy | hy
            · subst hy; rw [hcf]; simp
            · exact hmem y hy
          · rw [List.take_succ_cons, List.filter_cons, if_pos hfwd, hgr]
            simp
          · rw [List.take_succ_cons, List.any_cons, hmod]
            rw [hcf]
            simp
          · rw [List.take_succ_cons, List.filter_cons, if_pos hfwd, hpr]
            show lastPrimFrom (st.group ++ [x]).length _ _ =
              lastPrimFrom (st.group.length + 1) _ _
            rw [List.length_append]
            rfl
        | false =>
          have hst : RR.step st x = some { st with modification := true } := by
            unfold RR.step
            rw [hcf]
          rw [hst] at h
          have h2 : RR.collect { st with modification := true } n xs = .ok st2 := h
          obtain ⟨hlen, hmem, hgr, hmod, hpr⟩ := ih xs _ st2 h2
          have hfwd : fwdT x = false := by
            unfold fwdT
            rw [hcf]
            rfl
          refine ⟨by simpa using Nat.succ_le_succ hlen, ?_, ?_, ?_, ?_⟩
          · intro y hy
            rw [List.take_succ_cons] at hy
            rcases List.mem_cons.mp hy with hy | hy
            · subst hy; rw [hcf]; simp
            · exact hmem y hy
          · rw [List.take_succ_cons, List.filter_cons, if_neg (by simp [hfwd]), hgr]
          · rw [List.take_succ_cons, List.any_cons, hmod]
            rw [hcf]
            simp
          · rw [List.take_succ_cons, List.filter_cons, if_neg (by simp [hfwd]), hpr]

theorem RR_collect_short : ∀ (n : Nat) (ls : List (List Char)) (st : RR.St),
    ls.length < n →
    ∃ h, RR.collect st n ls = .error h ∧ (h = Halt.exc ∨ h = Halt.code 17) := by
  intro n
  induction n with
  | zero => intro ls st h; omega
  | succ n ih =>
    intro ls st hlen
    cases ls with
    | nil => exact ⟨Halt.code 17, rfl, Or.inr rfl⟩
    | cons x xs =>
      unfold RR.collect
      cases hst : RR.step st x with
      | none => exact ⟨Halt.exc, rfl, Or.inl rfl⟩
      | some st2 =>
        simp only [List.length_cons] at hlen
        obtain ⟨h, hh, hcase⟩ := ih xs st2 (by omega)
        exact ⟨h, hh, hcase⟩

theorem any_false_eq_not_all {l : List (List Char)}
    (hcl : ∀ x ∈ l, check_flag x 16 ≠ none) :
    (l.any (fun x => check_flag x 16 == some false)) = !l.all fwdT := by
  induction l with
  | nil => rfl
  | cons x xs ih =>
    rw [List.any_cons, List.all_cons]
    have hx := hcl x (by simp)
    cases hcf : check_flag x 16 with
    | none => exact absurd hcf hx
    | some b =>
      have hrest := ih (fun y hy => hcl y (by simp [hy]))
      cases b with
      | true =>
        have hfwd : fwdT x = true := fwdT_true_iff.mpr hcf
        simp only [hcf, hfwd, hrest]
        simp
      | false =>
        have hfwd : fwdT x = false := by
          unfold fwdT
          rw [hcf]
          rfl
        simp only [hcf, hfwd]
        simp

theorem RR_groupRun_ok_spec {count : Nat} {line : List Char} {rest outs : List (List Char)}
    (h : RR.groupRun count line rest = .ok outs) :
    count - 1 ≤ rest.length ∧
    (∀ x ∈ grpOf count line rest, check_flag x 16 ≠ none) ∧
    ((∀ x ∈ grpOf count line rest, fwdT x = true) → outs = grpOf count line rest) ∧
    ((∃ x ∈ grpOf count line rest, fwdT x = false) →
      rewriteGroup ((grpOf count line rest).filter fwdT)
        (lastPrimFrom 0 none ((grpOf count line rest).filter fwdT)) = .ok outs) := by
  unfold RR.groupRun at h
  cases hcf : check_flag line 16 with
  | none =>
    have hst : RR.step ⟨[], none, false⟩ line = none := by
      unfold RR.step
      rw [hcf]
    rw [hst] at h
    have : (Except.error Halt.exc : Except Halt (List (List Char))) = .ok outs := h
    simp at this
  | some b =>
    have hb : RR.step ⟨[], none, false⟩ line =
        some (if b then
          { group := [line], primary := if primT line then some 0 else none,
            modification := false }
        else { group := [], primary := none, modification := true }) := by
      unfold RR.step
      rw [hcf]
      cases b <;> rfl
    rw [hb] at h
    set st0 : RR.St := if b then
        { group := [line], primary := if primT line then some 0 else none,
          modification := false }
      else { group := [], primary := none, modification := true } with hst0
    replace h : (match RR.collect st0 (count - 1) rest with
        | Except.error e => Except.error e
        | Except.ok st =>
          if st.modification then
            match rewriteGroup st.group st.primary with
            | Except.error c => Except.error (Halt.code c)
            | Except.ok o => Except.ok o
          else Except.ok st.group) = Except.ok outs := h
    cases hco : RR.collect st0 (count - 1) rest with
    | error e =>
      rw [hco] at h
      have : (Except.error e : Except Halt (List (List Char))) = .ok outs := h
      simp at this
    | ok st =>
      rw [hco] at h
      replace h : (if st.modification = true then
          match rewriteGroup st.group st.primary with
          | Except.error c => Except.error (Halt.code c)
          | Except.ok o => Except.ok o
        else Except.ok st.group) = Except.ok outs := h
      obtain ⟨hlen, hmem, hgr, hmod, hpr⟩ := RR_collect_spec _ _ _ _ hco
      have hcl : ∀ x ∈ rest.take (count - 1), check_flag x 16 ≠ none := hmem
      have hany := any_false_eq_not_all hcl
      -- describe the collected state in the two first-line cases
      have hgrp : grpOf count line rest = line :: rest.take (count - 1) := rfl
      refine ⟨hlen, ?_, ?_, ?_⟩
      · intro x hx
        rw [hgrp] at hx
        rcases List.mem_cons.mp hx with hx | hx
        · subst hx; rw [hcf]; simp
        · exact hcl x hx
      · -- every line kept: no modification, group emitted verbatim
        intro hall
        have hfl : fwdT line = true := hall line (by rw [hgrp]; simp)
        have hbt : b = true := by
          have := fwdT_true_iff.mp hfl
          rw [hcf] at this
          simpa using this
        subst hbt
        have halltake : (rest.take (count - 1)).all fwdT = true := by
          rw [List.all_eq_true]
          intro x hx
          exact hall x (by rw [hgrp]; simp [hx])
        have hmodf : st.modification = false := by
          rw [hmod, hany, halltake]
          rw [hst0]
          rw [if_pos rfl]
          simp
        rw [hmodf] at h
        have h2 : (Except.ok st.group : Except Halt (List (List Char))) = .ok outs := h
        simp only [Except.ok.injEq] at h2
        rw [← h2, hgr, hst0]
        rw [if_pos rfl]
        rw [hgrp]
        have : (rest.take (count - 1)).filter fwdT = rest.take (count - 1) :=
          List.filter_eq_self.mpr (fun x hx => hall x (by rw [hgrp]; simp [hx]))
        simp [this]
      · -- some line dropped: modification is set and the rewriter runs
        intro hex
        have halt : (st0.group = [line] ∧ st0.primary =
              (if primT line then some 0 else none) ∧ st0.modification = false ∧
              fwdT line = true) ∨
            (st0.group = [] ∧ st0.primary = none ∧ st0.modification = true ∧
              fwdT line = false) := by
          cases hbv : b
          · refine Or.inr ?_
            rw [hst0, hbv]
            rw [if_neg (by simp)]
            refine ⟨rfl, rfl, rfl, ?_⟩
            unfold fwdT
            rw [hbv] at hcf
            rw [hcf]
            rfl
          · refine Or.inl ?_
            rw [hst0, hbv]
            rw [if_pos rfl]
            rw [hbv] at hcf
            exact ⟨rfl, rfl, rfl, fwdT_true_iff.mpr hcf⟩
        have hsurv : st.group = (grpOf count line rest).filter fwdT := by
          rw [hgr, hgrp]
          rcases halt with ⟨h1, _, _, hfl⟩ | ⟨h1, _, _, hfl⟩
          · rw [h1, List.filter_cons, if_pos hfl]
            simp
          · rw [h1, List.filter_cons, if_neg (by simp [hfl])]
            simp
        have hprim : st.primary = lastPrimFrom 0 none ((grpOf count line rest).filter fwdT) := by
          rw [hpr, hgrp]
          rcases halt with ⟨h1, h2, _, hfl⟩ | ⟨h1, h2, _, hfl⟩
          · rw [h1, h2, List.filter_cons, if_pos hfl]
            rfl
          · rw [h1, h2, List.filter_cons, if_neg (by simp [hfl])]
            rfl
        have hmodt : st.modification = true := by
          rw [hmod, hany]
          obtain ⟨x, hx, hxf⟩ := hex
          rw [hgrp] at hx
          rcases List.mem_cons.mp hx with hx | hx
          · -- the first line was dropped
            subst hx
            rcases halt with ⟨_, _, _, hfl⟩ | ⟨_, _, hm, _⟩
            · rw [hfl] at hxf
              simp at hxf
            · rw [hm]
              simp
          · have : (rest.take (count - 1)).all fwdT = false := by
              rw [← Bool.not_eq_true, List.all_eq_true]
              intro hc
              rw [hc x hx] at hxf
              simp at hxf
            rw [this]
            simp
        rw [hmodt] at h
        rw [← hprim, ← hsurv]
        cases hrw : rewriteGroup st.group st.primary with
        | error c =>
          rw [hrw] at h
          have : (Except.error (Halt.code c) : Except Halt (List (List Char))) = .ok outs := h
          simp at this
        | ok o =>
          rw [hrw] at h
          have h2 : (Except.ok o : Except Halt (List (List Char))) = .ok outs := h
          simp only [Except.ok.injEq] at h2
          rw [h2]

/-! ### The allow-list group collector (select_transcripts) -/

theorem ST_collect_spec : ∀ (n : Nat) (ls : List (List Char))
    (ids : List (List Char)) (st st2 : ST.St),
    ST.collect ids st n ls = .ok st2 →
    n ≤ ls.length ∧
    st2.group = st.group ++ (ls.take n).filter (ST.memT ids) ∧
    st2.primary = lastPrimFrom st.group.length st.primary ((ls.take n).filter (ST.memT ids)) := by
  intro n
  induction n with
  | zero =>
    intro ls ids st st2 h
    have h2 : st = st2 := by
      have : (Except.ok st : Except Halt ST.St) = .ok st2 := h
      simpa using this
    subst h2
    refine ⟨by omega, by simp, by simp [lastPrimFrom]⟩
  | succ n ih =>
    intro ls ids st st2 h
    cases ls with
    | nil =>
      have : (Except.error (Halt.code 17) : Except Halt ST.St) = .ok st2 := h
      simp at this
    | cons x xs =>
      unfold ST.collect at h
      by_cases hmem : ST.memT ids x
      · cases hcf : check_flag x 256 with
        | none =>
          have hst : ST.step ids st x = none := by
            unfold ST.step
            rw [if_pos hmem, hcf]
          rw [hst] at h
          have : (Except.error Halt.exc : Except Halt ST.St) = .ok st2 := h
          simp at this
        | some b =>
          have hst : ST.step ids st x = some
              { group := st.group ++ [x]
                primary := if b then some st.group.length else st.primary } := by
            unfold ST.step
            rw [if_pos hmem, hcf]
          rw [hst] at h
          have h2 : ST.collect ids
              { group := st.group ++ [x]
                primary := if b then some st.group.length else st.primary } n xs = .ok st2 := h
          obtain ⟨hlen, hgr, hpr⟩ := ih xs ids _ st2 h2
          have hpb : primT x = b := by
            unfold primT
            rw [hcf]
            cases b <;> rfl
          refine ⟨by simpa using Nat.succ_le_succ hlen, ?_, ?_⟩
          · rw [List.take_succ_cons, List.filter_cons, if_pos hmem, hgr]
            simp
          · rw [List.take_succ_cons, List.filter_cons, if_pos hmem, hpr]
            show lastPrimFrom (st.group ++ [x]).length _ _ =
              lastPrimFrom (st.group.length + 1) (if primT x then some st.group.length else st.primary) _
            rw [List.length_append, hpb]
            rfl
      · have hst : ST.step ids st x = some st := by
          unfold ST.step
          rw [if_neg hmem]
        rw [hst] at h
        have h2 : ST.collect ids st n xs = .ok st2 := h
        obtain ⟨hlen, hgr, hpr⟩ := ih xs ids st st2 h2
        have hmemb : ST.memT ids x = false := by
          revert hmem; cases ST.memT ids x <;> simp
        refine ⟨by simpa using Nat.succ_le_succ hlen, ?_, ?_⟩
        · rw [List.take_succ_cons, List.filter_cons, if_neg (by simp [hmemb]), hgr]
        · rw [List.take_succ_cons, List.filter_cons, if_neg (by simp [hmemb]), hpr]

theorem ST_collect_short : ∀ (n : Nat) (ls : List (List Char))
    (ids : List (List Char)) (st : ST.St),
    ls.length < n →
    ∃ h, ST.collect ids st n ls = .error h ∧ (h = Halt.exc ∨ h = Halt.code 17) := by
  intro n
  induction n with
  | zero => intro ls ids st h; omega
  | succ n ih =>
    intro ls ids st hlen
    cases ls with
    | nil => exact ⟨Halt.code 17, rfl, Or.inr rfl⟩
    | cons x xs =>
      unfold ST.collect
      cases hst : ST.step ids st x with
      | none => exact ⟨Halt.exc, rfl, Or.inl rfl⟩
      | some st2 =>
        simp only [List.length_cons] at hlen
        obtain ⟨h, hh, hcase⟩ := ih xs ids st2 (by omega)
        exact ⟨h, hh, hcase⟩

theorem ST_groupRun_ok_spec {ids : List (List Char)} {count : Nat} {line : List Char}
    {rest outs : List (List Char)}
    (h : ST.groupRun ids count line rest = .ok outs) (hc2 : 2 ≤ count) :
    count - 1 ≤ rest.length ∧
    ((∀ x ∈ grpOf count line rest, ST.memT ids x = true) → outs = grpOf count line rest) ∧
    ((∃ x ∈ grpOf count line rest, ST.memT ids x = false) →
      rewriteGroup ((grpOf count line rest).filter (ST.memT ids))
        (lastPrimFrom 0 none ((grpOf count line rest).filter (ST.memT ids))) = .ok outs) := by
  unfold ST.groupRun at h
  have hgrp : grpOf count line rest = line :: rest.take (count - 1) := rfl
  by_cases hmem : ST.memT ids line
  · cases hcf : check_flag line 256 with
    | none =>
      have hst : ST.step ids ⟨[], none⟩ line = none := by
        unfold ST.step
        rw [if_pos hmem, hcf]
      rw [hst] at h
      have : (Except.error Halt.exc : Except Halt (List (List Char))) = .ok outs := h
      simp at this
    | some b =>
      have hst : ST.step ids ⟨[], none⟩ line = some
          { group := [line], primary := if b then some 0 else none } := by
        unfold ST.step
        rw [if_pos hmem, hcf]
        rfl
      rw [hst] at h
      have hpb : primT line = b := by
        unfold primT
        rw [hcf]
        cases b <;> rfl
      replace h : (match ST.collect ids
            { group := [line], primary := if b then some 0 else none } (count - 1) rest with
          | Except.error e => Except.error e
          | Except.ok st =>
            if st.group.length = count then Except.ok st.group
            else
              match rewriteGroup st.group st.primary with
              | Except.error c => Except.error (Halt.code c)
              | Except.ok o => Except.ok o) = Except.ok outs := h
      cases hco : ST.collect ids
          { group := [line], primary := if b then some 0 else none } (count - 1) rest with
      | error e =>
        rw [hco] at h
        have : (Except.error e : Except Halt (List (List Char))) = .ok outs := h
        simp at this
      | ok st =>
        rw [hco] at h
        replace h : (if st.group.length = count then Except.ok st.group
            else
              match rewriteGroup st.group st.primary with
              | Except.error c => Except.error (Halt.code c)
              | Except.ok o => Except.ok o) = Except.ok outs := h
        obtain ⟨hlen, hgr, hpr⟩ := ST_collect_spec _ _ _ _ _ hco
        have hsurv : st.group = (grpOf count line rest).filter (ST.memT ids) := by
          rw [hgr, hgrp, List.filter_cons, if_pos hmem]
          simp
        have hprim : st.primary =
            lastPrimFrom 0 none ((grpOf count line rest).filter (ST.memT ids)) := by
          rw [hpr, hgrp, List.filter_cons, if_pos hmem]
          show lastPrimFrom 1 _ _ = lastPrimFrom (0+1) (if primT line then some 0 else none) _
          rw [hpb]
        have htake : (rest.take (count - 1)).length = count - 1 := by
          rw [List.length_take]
          omega
        refine ⟨hlen, ?_, ?_⟩
        · intro hall
          have hfs : (rest.take (count - 1)).filter (ST.memT ids) = rest.take (count - 1) :=
            List.filter_eq_self.mpr (fun x hx => hall x (by rw [hgrp]; simp [hx]))
          have hglen : st.group.length = count := by
            rw [hsurv, hgrp, List.filter_cons, if_pos hmem, List.length_cons, hfs]
            omega
          rw [if_pos hglen] at h
          have h2 : (Except.ok st.group : Except Halt (List (List Char))) = .ok outs := h
          simp only [Except.ok.injEq] at h2
          rw [← h2, hsurv, hgrp, List.filter_cons, if_pos hmem, hfs]
        · intro hex
          have hglen : st.group.length ≠ count := by
            rw [hsurv, hgrp]
            obtain ⟨x, hx, hxf⟩ := hex
            rw [hgrp] at hx
            have hlt : ((line :: rest.take (count - 1)).filter (ST.memT ids)).length <
                (line :: rest.take (count - 1)).length := by
              apply List.length_filter_lt_length_iff_exists.mpr
              exact ⟨x, hx, by simp [hxf]⟩
            simp only [List.length_cons, htake] at hlt
            omega
          rw [if_neg hglen] at h
          rw [← hprim, ← hsurv]
          cases hrw : rewriteGroup st.group st.primary with
          | error c =>
            rw [hrw] at h
            have : (Except.error (Halt.code c) : Except Halt (List (List Char))) = .ok outs := h
            simp at this
          | ok o =>
            rw [hrw] at h
            have h2 : (Except.ok o : Except Halt (List (List Char))) = .ok outs := h
            simp only [Except.ok.injEq] at h2
            rw [h2]
  · have hst : ST.step ids ⟨[], none⟩ line = some ⟨[], none⟩ := by
      unfold ST.step
      rw [if_neg hmem]
    rw [hst] at h
    replace h : (match ST.collect ids ⟨[], none⟩ (count - 1) rest with
        | Except.error e => Except.error e
        | Except.ok st =>
          if st.group.length = count then Except.ok st.group
          else
            match rewriteGroup st.group st.primary with
            | Except.error c => Except.error (Halt.code c)
            | Except.ok o => Except.ok o) = Except.ok outs := h
    cases hco : ST.collect ids ⟨[], none⟩ (count - 1) rest with
    | error e =>
      rw [hco] at h
      have : (Except.error e : Except Halt (List (List Char))) = .ok outs := h
      simp at this
    | ok st =>
      rw [hco] at h
      replace h : (if st.group.length = count then Except.ok st.group
          else
            match rewriteGroup st.group st.primary with
            | Except.error c => Except.error (Halt.code c)
            | Except.ok o => Except.ok o) = Except.ok outs := h
      obtain ⟨hlen, hgr, hpr⟩ := ST_collect_spec _ _ _ _ _ hco
      have hmemb : ST.memT ids line = false := by
        revert hmem; cases ST.memT ids line <;> simp
      have hsurv : st.group = (grpOf count line rest).filter (ST.memT ids) := by
        rw [hgr, hgrp, List.filter_cons, if_neg (by simp [hmemb])]
        simp
      have hprim : st.primary =
          lastPrimFrom 0 none ((grpOf count line rest).filter (ST.memT ids)) := by
        rw [hpr, hgrp, List.filter_cons, if_neg (by simp [hmemb])]
        rfl
      have htake : (rest.take (count - 1)).length = count - 1 := by
        rw [List.length_take]
        omega
      refine ⟨hlen, ?_, ?_⟩
      · intro hall
        have := hall line (by rw [hgrp]; simp)
        rw [hmemb] at this
        simp at this
      · intro _
        have hglen : st.group.length ≠ count := by
          have hle : st.group.length ≤ count - 1 := by
            rw [hgr]
            simp only [List.length_append]
            have : ((rest.take (count - 1)).filter (ST.memT ids)).length ≤
                (rest.take (count - 1)).length := List.length_filter_le _ _
            simpa using by omega
          omega
        rw [if_neg hglen] at h
        rw [← hprim, ← hsurv]
        cases hrw : rewriteGroup st.group st.primary with
        | error c =>
          rw [hrw] at h
          have : (Except.error (Halt.code c) : Except Halt (List (List Char))) = .ok outs := h
          simp at this
        | ok o =>
          rw [hrw] at h
          have h2 : (Except.ok o : Except Halt (List (List Char))) = .ok outs := h
          simp only [Except.ok.injEq] at h2
          rw [h2]

/-! ### The gene-ambiguity group collector (filter_ambiguous_genes) -/

theorem AG_collect_of_resolved :
    ∀ (n : Nat) (ls : List (List Char)) (tg : List (List Char × List Char))
      (g0 : List Char) (group : List (List Char)),
    n ≤ ls.length →
    (∀ x ∈ ls.take n, ∃ g, AG.lookup tg (AG.extract_transcript_id x) = some g) →
    ∃ group2, AG.collect tg g0 group n ls = .ok group2 ∧
      group2.length ≤ group.length + n ∧
      ((∃ x ∈ ls.take n, ∃ g, AG.lookup tg (AG.extract_transcript_id x) = some g ∧ g ≠ g0) →
        group2.length < group.length + n) ∧
      ((∀ x ∈ ls.take n, AG.lookup tg (AG.extract_transcript_id x) = some g0) →
        group2 = group ++ ls.take n) := by
  intro n
  induction n with
  | zero =>
    intro ls tg g0 group _ _
    exact ⟨group, by cases ls <;> rfl, by omega, by simp, by simp⟩
  | succ n ih =>
    intro ls tg g0 group hlen hres
    cases ls with
    | nil => simp at hlen
    | cons x xs =>
      obtain ⟨g, hg⟩ := hres x (by simp)
      simp only [List.length_cons] at hlen
      by_cases hgg : g0 = g
      · obtain ⟨group2, hco, hb1, hb2, hb3⟩ :=
          ih xs tg g0 (group ++ [x]) (by omega)
            (fun y hy => hres y (by rw [List.take_succ_cons]; simp [hy]))
        have hunf : AG.collect tg g0 group (n+1) (x :: xs) =
            AG.collect tg g0 (if g0 == g then group ++ [x] else []) n xs := by
          show (match AG.lookup tg (AG.extract_transcript_id x) with
            | none => Except.error (Halt.code 7)
            | some g => AG.collect tg g0 (if g0 == g then group ++ [x] else []) n xs) = _
          rw [hg]
        refine ⟨group2, ?_, ?_, ?_, ?_⟩
        · rw [hunf, if_pos (by simp [hgg])]
          exact hco
        · simp only [List.length_append, List.length_singleton] at hb1
          omega
        · intro hex
          obtain ⟨y, hy, gy, hgy, hgyne⟩ := hex
          rw [List.take_succ_cons] at hy
          rcases List.mem_cons.mp hy with hy | hy
          · subst hy
            rw [hg] at hgy
            simp only [Option.some.injEq] at hgy
            subst hgy
            exact absurd hgg.symm hgyne
          · have := hb2 ⟨y, hy, gy, hgy, hgyne⟩
            simp only [List.length_append, List.length_singleton] at this
            omega
        · intro hall
          rw [List.take_succ_cons]
          rw [hb3 (fun y hy => hall y (by rw [List.take_succ_cons]; simp [hy]))]
          simp
      · obtain ⟨group2, hco, hb1, hb2, hb3⟩ :=
          ih xs tg g0 [] (by omega)
            (fun y hy => hres y (by rw [List.take_succ_cons]; simp [hy]))
        have hunf : AG.collect tg g0 group (n+1) (x :: xs) =
            AG.collect tg g0 (if g0 == g then group ++ [x] else []) n xs := by
          show (match AG.lookup tg (AG.extract_transcript_id x) with
            | none => Except.error (Halt.code 7)
            | some g => AG.collect tg g0 (if g0 == g then group ++ [x] else []) n xs) = _
          rw [hg]
        refine ⟨group2, ?_, ?_, ?_, ?_⟩
        · rw [hunf, if_neg (by simp [hgg])]
          exact hco
        · simp only [List.length_nil] at hb1
          omega
        · intro _
          simp only [List.length_nil] at hb1
          omega
        · intro hall
          have := hall x (by rw [List.take_succ_cons]; simp)
          rw [hg] at this
          simp only [Option.some.injEq] at this
          exact absurd this.symm hgg

theorem AG_collect_err7 :
    ∀ (p : List (List Char)) (n : Nat) (tg : List (List Char × List Char))
      (g0 : List Char) (group : List (List Char)) (bad : List Char) (tail : List (List Char)),
    p.length < n →
    (∀ x ∈ p, ∃ g, AG.lookup tg (AG.extract_transcript_id x) = some g) →
    AG.lookup tg (AG.extract_transcript_id bad) = none →
    AG.collect tg g0 group n (p ++ bad :: tail) = .error (Halt.code 7) := by
  intro p
  induction p with
  | nil =>
    intro n tg g0 group bad tail hlen _ hbad
    cases n with
    | zero => omega
    | succ n =>
      show (match AG.lookup tg (AG.extract_transcript_id bad) with
        | none => Except.error (Halt.code 7)
        | some g => AG.collect tg g0 (if g0 == g then group ++ [bad] else []) n tail) = _
      rw [hbad]
  | cons q p ih =>
    intro n tg g0 group bad tail hlen hres hbad
    cases n with
    | zero => simp at hlen
    | succ n =>
      obtain ⟨g, hg⟩ := hres q (by simp)
      have hunf : AG.collect tg g0 group (n+1) ((q :: p) ++ bad :: tail) =
          AG.collect tg g0 (if g0 == g then group ++ [q] else []) n (p ++ bad :: tail) := by
        show (match AG.lookup tg (AG.extract_transcript_id q) with
          | none => Except.error (Halt.code 7)
          | some g => AG.collect tg g0 (if g0 == g then group ++ [q] else []) n (p ++ bad :: tail)) = _
        rw [hg]
      rw [hunf]
      exact ih n tg g0 _ bad tail (by simp at hlen; omega)
        (fun y hy => hres y (by simp [hy])) hbad

theorem AG_collect_short : ∀ (n : Nat) (ls : List (List Char))
    (tg : List (List Char × List Char)) (g0 : List Char) (group : List (List Char)),
    ls.length < n →
    ∃ h, AG.collect tg g0 group n ls = .error h ∧
      (h = Halt.code 7 ∨ h = Halt.code 17) := by
  intro n
  induction n with
  | zero => intro ls tg g0 group h; omega
  | succ n ih =>
    intro ls tg g0 group hlen
    cases ls with
    | nil => exact ⟨Halt.code 17, rfl, Or.inr rfl⟩
    | cons x xs =>
      cases hg : AG.lookup tg (AG.extract_transcript_id x) with
      | none =>
        refine ⟨Halt.code 7, ?_, Or.inl rfl⟩
        show (match AG.lookup tg (AG.extract_transcript_id x) with
          | none => Except.error (Halt.code 7)
          | some g => AG.collect tg g0 (if g0 == g then group ++ [x] else []) n xs) = _
        rw [hg]
      | some g =>
        simp only [List.length_cons] at hlen
        obtain ⟨h, hh, hcase⟩ := ih xs tg g0 (if g0 == g then group ++ [x] else []) (by omega)
        refine ⟨h, ?_, hcase⟩
        have hunf : AG.collect tg g0 group (n+1) (x :: xs) =
            AG.collect tg g0 (if g0 == g then group ++ [x] else []) n xs := by
          show (match AG.lookup tg (AG.extract_transcript_id x) with
            | none => Except.error (Halt.code 7)
            | some g => AG.collect tg g0 (if g0 == g then group ++ [x] else []) n xs) = _
          rw [hg]
        rw [hunf]
        exact hh

theorem AG_groupRun_spec {tg : List (List Char × List Char)} {count : Nat}
    {line : List Char} {rest : List (List Char)}
    (hc2 : 2 ≤ count) (hlen : count - 1 ≤ rest.length)
    (hres : ∀ x ∈ grpOf count line rest,
      ∃ g, AG.lookup tg (AG.extract_transcript_id x) = some g) :
    ∃ outs, AG.groupRun tg count line rest = .ok outs ∧
      ((∀ x ∈ grpOf count line rest, AG.lookup tg (AG.extract_transcript_id x) =
          AG.lookup tg (AG.extract_transcript_id line)) → outs = grpOf count line rest) ∧
      ((∃ x ∈ grpOf count line rest, AG.lookup tg (AG.extract_transcript_id x) ≠
          AG.lookup tg (AG.extract_transcript_id line)) → outs = []) ∧
      (outs = grpOf count line rest ∨ outs = []) := by
  have hgrp : grpOf count line rest = line :: rest.take (count - 1) := rfl
  obtain ⟨g0, hg0⟩ := hres line (by rw [hgrp]; simp)
  have htake : (rest.take (count - 1)).length = count - 1 := by
    rw [List.length_take]
    omega
  obtain ⟨group2, hco, hb1, hb2, hb3⟩ :=
    AG_collect_of_resolved (count - 1) rest tg g0 [line] hlen
      (fun y hy => hres y (by rw [hgrp]; exact List.mem_cons_of_mem _ hy))
  have hunf : AG.groupRun tg count line rest =
      .ok (if group2.length = count then group2 else []) := by
    show (match AG.lookup tg (AG.extract_transcript_id line) with
      | none => Except.error (Halt.code 6)
      | some g0 =>
        match AG.collect tg g0 [line] (count - 1) rest with
        | Except.error h => Except.error h
        | Except.ok group => Except.ok (if group.length = count then group else [])) = _
    rw [hg0]
    show (match AG.collect tg g0 [line] (count - 1) rest with
      | Except.error h => Except.error h
      | Except.ok group => Except.ok (if group.length = count then group else [])) = _
    rw [hco]
  refine ⟨if group2.length = count then group2 else [], hunf, ?_, ?_, ?_⟩
  · intro hall
    have hline : AG.lookup tg (AG.extract_transcript_id line) = some g0 := hg0
    have hallg : ∀ x ∈ rest.take (count - 1),
        AG.lookup tg (AG.extract_transcript_id x) = some g0 := by
      intro x hx
      rw [hall x (by rw [hgrp]; exact List.mem_cons_of_mem _ hx)]
      exact hline
    have h2 : group2 = [line] ++ rest.take (count - 1) := hb3 hallg
    have hglen : group2.length = count := by
      rw [h2]
      simp only [List.length_append, List.length_singleton, htake]
      omega
    rw [if_pos hglen, h2, hgrp]
    rfl
  · intro hex
    obtain ⟨x, hx, hxne⟩ := hex
    have hxt : x ∈ rest.take (count - 1) := by
      rw [hgrp] at hx
      rcases List.mem_cons.mp hx with hx | hx
      · subst hx
        exact absurd rfl hxne
      · exact hx
    obtain ⟨gx, hgx⟩ := hres x hx
    have hgxne : gx ≠ g0 := by
      intro hc
      subst hc
      rw [hgx, hg0] at hxne
      exact hxne rfl
    have hlt : group2.length < count := by
      have := hb2 ⟨x, hxt, gx, hgx, hgxne⟩
      simp only [List.length_singleton] at this
      omega
    rw [if_neg (by omega)]
  · by_cases hglen : group2.length = count
    · -- the group is complete, so every gene matched the first one
      refine Or.inl ?_
      rw [if_pos hglen]
      have hallg : ∀ x ∈ rest.take (count - 1),
          AG.lookup tg (AG.extract_transcript_id x) = some g0 := by
        intro x hx
        obtain ⟨gx, hgx⟩ := hres x (by rw [hgrp]; exact List.mem_cons_of_mem _ hx)
        by_cases hgg : gx = g0
        · rw [hgx, hgg]
        · exfalso
          have := hb2 ⟨x, hx, gx, hgx, hgg⟩
          simp only [List.length_singleton] at this
          omega
      rw [hb3 hallg, hgrp]
      rfl
    · refine Or.inr ?_
      rw [if_neg hglen]

/-! ### Driver-level unfolding lemmas -/

theorem RR_fileLoop_eq (fuel : Nat) (line : List Char) (rest : List (List Char)) :
    RR.fileLoop (fuel+1) (line :: rest) =
      (if line = [] then RR.fileLoop fuel rest
      else if line.head? = some '@' then
        ((line :: (RR.fileLoop fuel rest).1), (RR.fileLoop fuel rest).2)
      else
        match nhField line with
        | none => RR.fileLoop fuel rest
        | some s =>
          match parseNatPfx s with
          | none => ([], some Halt.exc)
          | some count =>
            if count = 1 then
              match check_flag line 16 with
              | none => ([], some Halt.exc)
              | some true => ((line :: (RR.fileLoop fuel rest).1), (RR.fileLoop fuel rest).2)
              | some false => RR.fileLoop fuel rest
            else
              match RR.groupRun count line rest with
              | .error h => ([], some h)
              | .ok outs => (outs ++ (RR.fileLoop fuel (rest.drop (count-1))).1,
                  (RR.fileLoop fuel (rest.drop (count-1))).2)) := rfl

theorem ST_fileLoop_eq (ids : List (List Char)) (fuel : Nat) (line : List Char)
    (rest : List (List Char)) :
    ST.fileLoop ids (fuel+1) (line :: rest) =
      (if line = [] then ST.fileLoop ids fuel rest
      else if line.head? = some '@' then
        (ST.headerOut ids line ++ (ST.fileLoop ids fuel rest).1, (ST.fileLoop ids fuel rest).2)
      else
        match nhField line with
        | none => ST.fileLoop ids fuel rest
        | some s =>
          match parseNatPfx s with
          | none => ([], some Halt.exc)
          | some count =>
            if count = 1 then
              if ST.memT ids line then
                ((line :: (ST.fileLoop ids fuel rest).1), (ST.fileLoop ids fuel rest).2)
              else ST.fileLoop ids fuel rest
            else
              match ST.groupRun ids count line rest with
              | .error h => ([], some h)
              | .ok outs => (outs ++ (ST.fileLoop ids fuel (rest.drop (count-1))).1,
                  (ST.fileLoop ids fuel (rest.drop (count-1))).2)) := rfl

theorem AG_fileLoop_eq (tg : List (List Char × List Char)) (fuel : Nat) (line : List Char)
    (rest : List (List Char)) :
    AG.fileLoop tg (fuel+1) (line :: rest) =
      (if line = [] then AG.fileLoop tg fuel rest
      else if line.head? = some '@' then
        ((line :: (AG.fileLoop tg fuel rest).1), (AG.fileLoop tg fuel rest).2)
      else
        match nhField line with
        | none => AG.fileLoop tg fuel rest
        | some s =>
          match parseNatPfx s with
          | none => ([], some Halt.exc)
          | some count =>
            if count = 1 then
              ((line :: (AG.fileLoop tg fuel rest).1), (AG.fileLoop tg fuel rest).2)
            else
              match AG.groupRun tg count line rest with
              | .error h => ([], some h)
              | .ok outs => (outs ++ (AG.fileLoop tg fuel (rest.drop (count-1))).1,
                  (AG.fileLoop tg fuel (rest.drop (count-1))).2)) := rfl

theorem RR_processFile_header {line : List Char} {rest : List (List Char)}
    (h0 : line ≠ []) (h1 : line.head? = some '@') :
    RR.processFile (line :: rest) =
      (line :: (RR.processFile rest).1, (RR.processFile rest).2) := by
  show RR.fileLoop (rest.length + 1) (line :: rest) = _
  rw [RR_fileLoop_eq, if_neg h0, if_pos h1]
  rfl

theorem AG_processFile_header {tg : List (List Char × List Char)} {line : List Char}
    {rest : List (List Char)} (h0 : line ≠ []) (h1 : line.head? = some '@') :
    AG.processFile tg (line :: rest) =
      (line :: (AG.processFile tg rest).1, (AG.processFile tg rest).2) := by
  show AG.fileLoop tg (rest.length + 1) (line :: rest) = _
  rw [AG_fileLoop_eq, if_neg h0, if_pos h1]
  rfl

theorem ST_processFile_header {ids : List (List Char)} {line : List Char}
    {rest : List (List Char)} (h0 : line ≠ []) (h1 : line.head? = some '@') :
    ST.processFile ids (line :: rest) =
      (ST.headerOut ids line ++ (ST.processFile ids rest).1, (ST.processFile ids rest).2) := by
  show ST.fileLoop ids (rest.length + 1) (line :: rest) = _
  rw [ST_fileLoop_eq, if_neg h0, if_pos h1]
  rfl

theorem RR_processFile_group_err {line : List Char} {rest : List (List Char)}
    {s : List Char} {count : Nat} {h : Halt}
    (h0 : line ≠ []) (h1 : line.head? ≠ some '@')
    (h2 : nhField line = some s) (h3 : parseNatPfx s = some count) (h4 : count ≠ 1)
    (h5 : RR.groupRun count line rest = .error h) :
    RR.processFile (line :: rest) = ([], some h) := by
  show RR.fileLoop (rest.length + 1) (line :: rest) = _
  rw [RR_fileLoop_eq, if_neg h0, if_neg h1]
  simp only [h2, h3, if_neg h4, h5]

theorem AG_processFile_group_err {tg : List (List Char × List Char)} {line : List Char}
    {rest : List (List Char)} {s : List Char} {count : Nat} {h : Halt}
    (h0 : line ≠ []) (h1 : line.head? ≠ some '@')
    (h2 : nhField line = some s) (h3 : parseNatPfx s = some count) (h4 : count ≠ 1)
    (h5 : AG.groupRun tg count line rest = .error h) :
    AG.processFile tg (line :: rest) = ([], some h) := by
  show AG.fileLoop tg (rest.length + 1) (line :: rest) = _
  rw [AG_fileLoop_eq, if_neg h0, if_neg h1]
  simp only [h2, h3, if_neg h4, h5]

theorem RR_groupRun_short {count : Nat} {line : List Char} {rest : List (List Char)}
    (hlen : rest.length < count - 1) :
    ∃ h, RR.groupRun count line rest = .error h ∧ (h = Halt.exc ∨ h = Halt.code 17) := by
  unfold RR.groupRun
  cases hst : RR.step ⟨[], none, false⟩ line with
  | none => exact ⟨Halt.exc, rfl, Or.inl rfl⟩
  | some st0 =>
    obtain ⟨h, hh, hcase⟩ := RR_collect_short (count - 1) rest st0 hlen
    refine ⟨h, ?_, hcase⟩
    show (match RR.collect st0 (count - 1) rest with
      | Except.error e => Except.error e
      | Except.ok st =>
        if st.modification then
          match rewriteGroup st.group st.primary with
          | Except.error c => Except.error (Halt.code c)
          | Except.ok outs => Except.ok outs
        else Except.ok st.group) = Except.error h
    rw [hh]

theorem AG_groupRun_short {tg : List (List Char × List Char)} {count : Nat}
    {line : List Char} {rest : List (List Char)}
    (hlen : rest.length < count - 1) :
    ∃ h, AG.groupRun tg count line rest = .error h ∧
      (h = Halt.code 6 ∨ h = Halt.code 7 ∨ h = Halt.code 17) := by
  unfold AG.groupRun
  cases hg : AG.lookup tg (AG.extract_transcript_id line) with
  | none => exact ⟨Halt.code 6, rfl, Or.inl rfl⟩
  | some g0 =>
    obtain ⟨h, hh, hcase⟩ := AG_collect_short (count - 1) rest tg g0 [line] hlen
    refine ⟨h, ?_, ?_⟩
    · show (match AG.collect tg g0 [line] (count - 1) rest with
        | Except.error e => Except.error e
        | Except.ok group => Except.ok (if group.length = count then group else [])) =
          Except.error h
      rw [hh]
    · rcases hcase with hc | hc
      · exact Or.inr (Or.inl hc)
      · exact Or.inr (Or.inr hc)

theorem AG_groupRun_err6 {tg : List (List Char × List Char)} {count : Nat}
    {line : List Char} {rest : List (List Char)}
    (hg : AG.lookup tg (AG.extract_transcript_id line) = none) :
    AG.groupRun tg count line rest = .error (Halt.code 6) := by
  unfold AG.groupRun
  rw [hg]

theorem AG_groupRun_err7 {tg : List (List Char × List Char)} {count : Nat}
    {line : List Char} {rest p tail : List (List Char)} {bad : List Char}
    {g0 : List Char}
    (hg0 : AG.lookup tg (AG.extract_transcript_id line) = some g0)
    (hrest : rest = p ++ bad :: tail)
    (hp : p.length < count - 1)
    (hpres : ∀ x ∈ p, ∃ g, AG.lookup tg (AG.extract_transcript_id x) = some g)
    (hbad : AG.lookup tg (AG.extract_transcript_id bad) = none) :
    AG.groupRun tg count line rest = .error (Halt.code 7) := by
  unfold AG.groupRun
  rw [hg0]
  subst hrest
  show (match AG.collect tg g0 [line] (count - 1) (p ++ bad :: tail) with
    | Except.error e => Except.error e
    | Except.ok group => Except.ok (if group.length = count then group else [])) = _
  rw [AG_collect_err7 p (count - 1) tg g0 [line] bad tail hp hpres hbad]

/-! ### Claims -/

theorem grpOf_length {count : Nat} {line : List Char} {rest : List (List Char)}
    (hc : 2 ≤ count) (hlen : count - 1 ≤ rest.length) :
    (grpOf count line rest).length = count := by
  unfold grpOf
  rw [List.length_cons, List.length_take]
  omega

theorem exists_dropped_of_filter_lt {p : List Char → Bool} {l : List (List Char)}
    (h : (l.filter p).length < l.length) : ∃ x ∈ l, p x = false := by
  by_contra hc
  push_neg at hc
  have : l.filter p = l := List.filter_eq_self.mpr (by
    intro x hx
    have := hc x hx
    revert this
    cases p x <;> simp)
  rw [this] at h
  omega

theorem emit_tag_facts {g : List (List Char)} {q : Option Nat} {i : Nat} {o fld : List Char}
    (ho : (rrEmit g q)[i]? = some o) (hf : fld ∈ splitTabs o) :
    (startsW nhTagL fld = true → fld = nhTagL ++ natChars g.length) ∧
    (startsW hiTagL fld = true → fld = hiTagL ++ natChars (i+1)) := by
  rw [rrEmit_getElem?] at ho
  cases hgi : g[i]? with
  | none => rw [hgi] at ho; simp at ho
  | some l =>
    rw [hgi] at ho
    simp only [Option.map_some', Option.some.injEq] at ho
    subst ho
    by_cases hl : l = []
    · subst hl
      have : rewriteLine (q == some i) (natChars (mapqVal g.length)) g.length (i+1) [] = [] := rfl
      rw [this] at hf
      simp only [splitTabs, List.mem_singleton] at hf
      subst hf
      constructor <;> intro hs <;> simp [startsW, nhTagL, hiTagL, List.isPrefixOf] at hs
    · exact ⟨rewriteLine_nh_fields hl (natChars_no_tab _) (startsW_nh_natChars _) fld hf,
        rewriteLine_hi_fields hl (natChars_no_tab _) (startsW_hi_natChars _) fld hf⟩

/-- C1: when a per-record policy (the reverse-strand filter of
filter_reverse_reads, or the transcript allow-list filter of
select_transcripts) reduces a group of `count` records to `k` survivors
with `1 ≤ k < count`, the emitted lines are exactly the rewrites of the
survivors in their original relative order (the survivors being the
order-preserving sublist of kept records), the i-th emitted line's
`NH:i:` fields all carry the value `k`, and its `HI:i:` fields all carry
the 1-based rank `i+1`. -/
theorem claim_c1_tags :
    (∀ (count : Nat) (line : List Char) (rest outs : List (List Char)),
      RR.groupRun count line rest = .ok outs →
      2 ≤ count →
      1 ≤ ((grpOf count line rest).filter fwdT).length →
      ((grpOf count line rest).filter fwdT).length < count →
      ((grpOf count line rest).filter fwdT).Sublist (grpOf count line rest) ∧
      (∃ q, outs = rrEmit ((grpOf count line rest).filter fwdT) q) ∧
      outs.length = ((grpOf count line rest).filter fwdT).length ∧
      (∀ (i : Nat) (o fld : List Char), outs[i]? = some o → fld ∈ splitTabs o →
        (startsW nhTagL fld = true →
          fld = nhTagL ++ natChars ((grpOf count line rest).filter fwdT).length) ∧
        (startsW hiTagL fld = true → fld = hiTagL ++ natChars (i+1)))) ∧
    (∀ (ids : List (List Char)) (count : Nat) (line : List Char) (rest outs : List (List Char)),
      ST.groupRun ids count line rest = .ok outs →
      2 ≤ count →
      1 ≤ ((grpOf count line rest).filter (ST.memT ids)).length →
      ((grpOf count line rest).filter (ST.memT ids)).length < count →
      ((grpOf count line rest).filter (ST.memT ids)).Sublist (grpOf count line rest) ∧
      (∃ q, outs = rrEmit ((grpOf count line rest).filter (ST.memT ids)) q) ∧
      outs.length = ((grpOf count line rest).filter (ST.memT ids)).length ∧
      (∀ (i : Nat) (o fld : List Char), outs[i]? = some o → fld ∈ splitTabs o →
        (startsW nhTagL fld = true →
          fld = nhTagL ++ natChars ((grpOf count line rest).filter (ST.memT ids)).length) ∧
        (startsW hiTagL fld = true → fld = hiTagL ++ natChars (i+1)))) := by
  constructor
  · intro count line rest outs h hc2 hk1 hk2
    obtain ⟨hlen, hclass, hallc, hexc⟩ := RR_groupRun_ok_spec h
    have hglen : (grpOf count line rest).length = count := grpOf_length hc2 hlen
    have hex : ∃ x ∈ grpOf count line rest, fwdT x = false :=
      exists_dropped_of_filter_lt (by omega)
    have hrw := hexc hex
    obtain ⟨q, hq, _⟩ := rewriteGroup_ok_cases hrw
    refine ⟨List.filter_sublist _, ⟨q, hq⟩, by rw [hq, rrEmit_length], ?_⟩
    intro i o fld ho hf
    rw [hq] at ho
    exact emit_tag_facts ho hf
  · intro ids count line rest outs h hc2 hk1 hk2
    obtain ⟨hlen, hallc, hexc⟩ := ST_groupRun_ok_spec h hc2
    have hglen : (grpOf count line rest).length = count := grpOf_length hc2 hlen
    have hex : ∃ x ∈ grpOf count line rest, ST.memT ids x = false :=
      exists_dropped_of_filter_lt (by omega)
    have hrw := hexc hex
    obtain ⟨q, hq, _⟩ := rewriteGroup_ok_cases hrw
    refine ⟨List.filter_sublist _, ⟨q, hq⟩, by rw [hq, rrEmit_length], ?_⟩
    intro i o fld ho hf
    rw [hq] at ho
    exact emit_tag_facts ho hf

/-- Witness for C1 on a concrete 3-record group whose first record is
reverse-strand: two survivors are emitted in order with `NH:i:2` and
`HI:i:1` / `HI:i:2`. -/
theorem claim_c1_tags_witness :
    ((grpOf 3 (("r1\t272\tT1\t1\t50\t5M\tNH:i:3\tHI:i:1").toList)
      [("r1\t256\tT2\t1\t50\t5M\tNH:i:3\tHI:i:2").toList,
       ("r1\t0\tT3\t1\t50\t5M\tNH:i:3\tHI:i:3").toList]).filter fwdT).Sublist
      (grpOf 3 (("r1\t272\tT1\t1\t50\t5M\tNH:i:3\tHI:i:1").toList)
      [("r1\t256\tT2\t1\t50\t5M\tNH:i:3\tHI:i:2").toList,
       ("r1\t0\tT3\t1\t50\t5M\tNH:i:3\tHI:i:3").toList]) ∧
    ([("r1\t256\tT2\t1\t3\t5M\tNH:i:2\tHI:i:1").toList,
      ("r1\t0\tT3\t1\t3\t5M\tNH:i:2\tHI:i:2").toList] : List (List Char)).length =
      ((grpOf 3 (("r1\t272\tT1\t1\t50\t5M\tNH:i:3\tHI:i:1").toList)
      [("r1\t256\tT2\t1\t50\t5M\tNH:i:3\tHI:i:2").toList,
       ("r1\t0\tT3\t1\t50\t5M\tNH:i:3\tHI:i:3").toList]).filter fwdT).length := by
  have h := claim_c1_tags.1 3 (("r1\t272\tT1\t1\t50\t5M\tNH:i:3\tHI:i:1").toList)
    [("r1\t256\tT2\t1\t50\t5M\tNH:i:3\tHI:i:2").toList,
     ("r1\t0\tT3\t1\t50\t5M\tNH:i:3\tHI:i:3").toList]
    [("r1\t256\tT2\t1\t3\t5M\tNH:i:2\tHI:i:1").toList,
     ("r1\t0\tT3\t1\t3\t5M\tNH:i:2\tHI:i:2").toList]
    (by rfl) (by decide) (by decide) (by decide)
  exact ⟨h.1, h.2.2.1⟩

theorem primT_eq_bit {l s : List Char} {v : Nat}
    (h1 : flagSlice l = some s) (h2 : parseNatPfx s = some v) :
    primT l = (v &&& 256 == 0) := by
  unfold primT
  rw [check_flag_of_flagSlice 256 h1 h2]
  cases v &&& 256 == 0 <;> rfl

theorem clear256_of_field1 {o s : List Char} {v : Nat}
    (h1 : (splitTabs o)[1]? = some s) (h2 : parseNatPfx s = some v) :
    clear256 o = (v &&& 256 == 0) := by
  unfold clear256
  rw [List.getD_eq_getElem?_getD, h1]
  show (match parseNatPfx s with
    | none => false
    | some v => v &&& 256 == 0) = _
  rw [h2]

theorem and256_xor (v : Nat) : (v ^^^ 256) &&& 256 = (v &&& 256) ^^^ 256 := by
  rw [Nat.and_xor_distrib_right]
  norm_num

theorem and256_cases (v : Nat) : v &&& 256 = 0 ∨ v &&& 256 = 256 := by
  have h : v &&& 2 ^ 8 = (v.testBit 8).toNat * 2 ^ 8 := Nat.and_two_pow v 8
  norm_num at h
  rw [h]
  cases v.testBit 8 <;> simp

theorem surv_flag_data {l : List Char} (hf : fwdT l = true) :
    ∃ s v, flagSlice l = some s ∧ parseNatPfx s = some v := by
  obtain ⟨s, v, h1, h2, _⟩ := check_flag_some_true (fwdT_true_iff.mp hf)
  exact ⟨s, v, h1, h2⟩

theorem field1_of_flagSlice {l s : List Char} (h : flagSlice l = some s) :
    (splitTabs l)[1]? = some s := by
  obtain ⟨f0, rest, hsp, _⟩ := flagSlice_spec h
  rw [hsp]
  simp

theorem emit_none_flag_keep {surv : List (List Char)} {i : Nat} {o l : List Char}
    (hsv : ∀ x ∈ surv, fwdT x = true)
    (ho : (rrEmit surv none)[i]? = some o) (hl : surv[i]? = some l) :
    (splitTabs o)[1]? = (splitTabs l)[1]? ∧ clear256 o = primT l := by
  rw [rrEmit_getElem?, hl] at ho
  simp only [Option.map_some', Option.some.injEq] at ho
  obtain ⟨s, v, h1, h2⟩ := surv_flag_data (hsv l (List.getElem?_mem hl))
  have hfo : (splitTabs o)[1]? = some s := by
    rw [← ho]
    rw [rewriteLine_flag_field h1 h2 (natChars_no_tab _)]
    simp
  refine ⟨?_, ?_⟩
  · rw [hfo, field1_of_flagSlice h1]
  · rw [clear256_of_field1 hfo h2, primT_eq_bit h1 h2]

theorem emit_some0_flag_first {surv : List (List Char)} {o l s : List Char} {v : Nat}
    (ho : (rrEmit surv (some 0))[0]? = some o) (hl : surv[0]? = some l)
    (h1 : flagSlice l = some s) (h2 : parseNatPfx s = some v) :
    (splitTabs o)[1]? = some (natChars (v ^^^ 256)) ∧
      clear256 o = ((v ^^^ 256) &&& 256 == 0) := by
  rw [rrEmit_getElem?, hl] at ho
  simp only [Option.map_some', Option.some.injEq] at ho
  have hfo : (splitTabs o)[1]? = some (natChars (v ^^^ 256)) := by
    rw [← ho]
    rw [rewriteLine_flag_field h1 h2 (natChars_no_tab _)]
    simp
  exact ⟨hfo, clear256_of_field1 hfo (parseNatPfx_natChars _)⟩

theorem emit_some0_flag_rest {surv : List (List Char)} {i : Nat} {o l : List Char}
    (hsv : ∀ x ∈ surv, fwdT x = true) (hi : 1 ≤ i)
    (ho : (rrEmit surv (some 0))[i]? = some o) (hl : surv[i]? = some l) :
    (splitTabs o)[1]? = (splitTabs l)[1]? ∧ clear256 o = primT l := by
  rw [rrEmit_getElem?, hl] at ho
  simp only [Option.map_some', Option.some.injEq] at ho
  obtain ⟨s, v, h1, h2⟩ := surv_flag_data (hsv l (List.getElem?_mem hl))
  have hbeq : (some 0 == some i) = false := by
    cases i with
    | zero => omega
    | succ j => rfl
  have hfo : (splitTabs o)[1]? = some s := by
    rw [← ho, hbeq]
    rw [rewriteLine_flag_field h1 h2 (natChars_no_tab _)]
    simp
  refine ⟨?_, ?_⟩
  · rw [hfo, field1_of_flagSlice h1]
  · rw [clear256_of_field1 hfo h2, primT_eq_bit h1 h2]

/-- C2: for a group rewritten after a per-record drop by
filter_reverse_reads (with a well-formed input group carrying at most
one primary marker), exactly one emitted survivor has the
secondary-alignment bit 256 clear; if some survivor already carried the
primary marker, no survivor's FLAG field changes; otherwise the first
survivor in original order receives flag value `v ^^^ 256` (its
secondary bit cleared by XOR) and every later survivor's FLAG field is
unchanged.  (The CIGAR comparison on this path only logs a
not-implemented warning; a successful run is unchanged by it.) -/
theorem claim_c2_primary :
    ∀ (count : Nat) (line : List Char) (rest outs : List (List Char)),
      RR.groupRun count line rest = .ok outs →
      2 ≤ count →
      (grpOf count line rest).Pairwise (fun a b => ¬(primT a = true ∧ primT b = true)) →
      1 ≤ ((grpOf count line rest).filter fwdT).length →
      ((grpOf count line rest).filter fwdT).length < count →
      (∃ (i : Nat) (o : List Char), outs[i]? = some o ∧ clear256 o = true ∧
        ∀ (j : Nat) (o2 : List Char), outs[j]? = some o2 → clear256 o2 = true → j = i) ∧
      ((∃ x ∈ (grpOf count line rest).filter fwdT, primT x = true) →
        ∀ (i : Nat) (o l : List Char), outs[i]? = some o →
          ((grpOf count line rest).filter fwdT)[i]? = some l →
          (splitTabs o)[1]? = (splitTabs l)[1]?) ∧
      ((∀ x ∈ (grpOf count line rest).filter fwdT, primT x = false) →
        ∀ (l s : List Char) (v : Nat), ((grpOf count line rest).filter fwdT)[0]? = some l →
          flagSlice l = some s → parseNatPfx s = some v →
          ∃ o, outs[0]? = some o ∧ (splitTabs o)[1]? = some (natChars (v ^^^ 256)) ∧
            ∀ (i : Nat) (o2 l2 : List Char), 1 ≤ i → outs[i]? = some o2 →
              ((grpOf count line rest).filter fwdT)[i]? = some l2 →
              (splitTabs o2)[1]? = (splitTabs l2)[1]?) := by
  intro count line rest outs h hc2 hpw hk1 hk2
  obtain ⟨hlen, hclass, hallc, hexc⟩ := RR_groupRun_ok_spec h
  have hglen : (grpOf count line rest).length = count := grpOf_length hc2 hlen
  have hex : ∃ x ∈ grpOf count line rest, fwdT x = false :=
    exists_dropped_of_filter_lt (by omega)
  have hrw := hexc hex
  set surv := (grpOf count line rest).filter fwdT with hsurvdef
  have hsv : ∀ x ∈ surv, fwdT x = true := fun x hx => List.of_mem_filter hx
  have hpws : surv.Pairwise (fun a b => ¬(primT a = true ∧ primT b = true)) :=
    List.Pairwise.sublist (List.filter_sublist _) hpw
  have hlenout : outs.length = surv.length := by
    obtain ⟨q, hq, _⟩ := rewriteGroup_ok_cases hrw
    rw [hq, rrEmit_length]
  cases hp : lastPrimFrom 0 none surv with
  | some j =>
    rw [hp] at hrw
    have houts : outs = rrEmit surv none := rewriteGroup_ok_some hrw
    have hi0ex : ∃ i, ∃ hlt : i < surv.length, primT (surv.get ⟨i, hlt⟩) = true := by
      rcases lastPrimFrom_some surv 0 none j hp with hc | hc
      · simp at hc
      · exact hc
    obtain ⟨i0, hi0lt, hprim0⟩ := hi0ex
    have hkeep : ∀ (i : Nat) (o l : List Char), outs[i]? = some o → surv[i]? = some l →
        (splitTabs o)[1]? = (splitTabs l)[1]? ∧ clear256 o = primT l := by
      intro i o l ho hl
      rw [houts] at ho
      exact emit_none_flag_keep hsv ho hl
    refine ⟨?_, ?_, ?_⟩
    · -- exactly one clear bit: the surviving primary
      have hsi0 : surv[i0]? = some (surv.get ⟨i0, hi0lt⟩) := by
        rw [List.getElem?_eq_getElem hi0lt]
        rfl
      have hoi0 : ∃ o, outs[i0]? = some o := by
        have : i0 < outs.length := by omega
        exact ⟨outs[i0], List.getElem?_eq_getElem this⟩
      obtain ⟨o, ho⟩ := hoi0
      refine ⟨i0, o, ho, ?_, ?_⟩
      · rw [(hkeep i0 o _ ho hsi0).2]
        exact hprim0
      · intro j2 o2 ho2 hcl2
        have hj2 : j2 < surv.length := by
          obtain ⟨hj2o, _⟩ := List.getElem?_eq_some_iff.mp ho2
          omega
        have hsj2 : surv[j2]? = some (surv.get ⟨j2, hj2⟩) := by
          rw [List.getElem?_eq_getElem hj2]
          rfl
        have hprimj2 : primT (surv.get ⟨j2, hj2⟩) = true := by
          rw [← (hkeep j2 o2 _ ho2 hsj2).2]
          exact hcl2
        by_contra hne
        have hR := List.pairwise_iff_get.mp hpws
        rcases Nat.lt_or_ge j2 i0 with hlt | hge
        · exact hR ⟨j2, hj2⟩ ⟨i0, hi0lt⟩ hlt ⟨hprimj2, hprim0⟩
        · have : i0 < j2 := by omega
          exact hR ⟨i0, hi0lt⟩ ⟨j2, hj2⟩ this ⟨hprim0, hprimj2⟩
    · intro _ i o l ho hl
      exact (hkeep i o l ho hl).1
    · intro hforall
      have hff := hforall _ (List.get_mem surv i0 hi0lt)
      rw [hff] at hprim0
      exact absurd hprim0 (by simp)
  | none =>
    rw [hp] at hrw
    have houts : outs = rrEmit surv (some 0) := rewriteGroup_ok_none hrw
    have hforall : ∀ x ∈ surv, primT x = false :=
      ((lastPrimFrom_none_iff surv 0 none).mp hp).2
    have hrest : ∀ (i : Nat) (o l : List Char), 1 ≤ i → outs[i]? = some o → surv[i]? = some l →
        (splitTabs o)[1]? = (splitTabs l)[1]? ∧ clear256 o = primT l := by
      intro i o l hi ho hl
      rw [houts] at ho
      exact emit_some0_flag_rest hsv hi ho hl
    have hl0 : ∃ l0, surv[0]? = some l0 := by
      have h0 : 0 < surv.length := by omega
      exact ⟨surv[0], List.getElem?_eq_getElem h0⟩
    obtain ⟨l0, hl0⟩ := hl0
    obtain ⟨s0, v0, hfs0, hpv0⟩ := surv_flag_data (hsv l0 (List.getElem?_mem hl0))
    have ho0 : ∃ o0, outs[0]? = some o0 := by
      have h0 : 0 < outs.length := by omega
      exact ⟨outs[0], List.getElem?_eq_getElem h0⟩
    obtain ⟨o0, ho0⟩ := ho0
    have hfirst := emit_some0_flag_first (houts ▸ ho0) hl0 hfs0 hpv0
    have hclear0 : clear256 o0 = true := by
      rw [hfirst.2]
      have hprim0 : primT l0 = false := hforall l0 (List.getElem?_mem hl0)
      have hbit : v0 &&& 256 = 256 := by
        rcases and256_cases v0 with hc | hc
        · rw [primT_eq_bit hfs0 hpv0, hc] at hprim0
          simp at hprim0
        · exact hc
      rw [and256_xor, hbit]
      rfl
    refine ⟨?_, ?_, ?_⟩
    · refine ⟨0, o0, ho0, hclear0, ?_⟩
      intro j2 o2 ho2 hcl2
      by_contra hne
      have hj1 : 1 ≤ j2 := by omega
      have hj2 : j2 < surv.length := by
        obtain ⟨hj2o, _⟩ := List.getElem?_eq_some_iff.mp ho2
        omega
      have hsj2 : surv[j2]? = some (surv.get ⟨j2, hj2⟩) := by
        rw [List.getElem?_eq_getElem hj2]
        rfl
      have := (hrest j2 o2 _ hj1 ho2 hsj2).2
      rw [hcl2] at this
      have hfj2 := hforall (surv.get ⟨j2, hj2⟩) (List.getElem?_mem hsj2)
      rw [hfj2] at this
      simp at this
    · intro hexp
      obtain ⟨x, hx, hxp⟩ := hexp
      rw [hforall x hx] at hxp
      simp at hxp
    · intro _ l s v hl hfs hpv
      have hl0eq : l = l0 := by
        rw [hl] at hl0
        simpa using hl0
      subst hl0eq
      have hs0eq : s = s0 := by
        rw [hfs] at hfs0
        simpa using hfs0
      subst hs0eq
      have hv0eq : v = v0 := by
        rw [hpv] at hpv0
        simpa using hpv0
      subst hv0eq
      refine ⟨o0, ho0, hfirst.1, ?_⟩
      intro i o2 l2 hi ho2 hl2
      exact (hrest i o2 l2 hi ho2 hl2).1

/-- Witness for C2: in a concrete 3-record group whose primary record is
reverse-strand (and so dropped), the emitted pair of survivors contains
exactly one line with the secondary bit clear. -/
theorem claim_c2_primary_witness :
    ∃ (i : Nat) (o : List Char),
      ([("r1\t0\tT2\t1\t3\t5M\tNH:i:2\tHI:i:1").toList,
        ("r1\t256\tT3\t1\t3\t5M\tNH:i:2\tHI:i:2").toList] : List (List Char))[i]? = some o ∧
      clear256 o = true ∧
      ∀ (j : Nat) (o2 : List Char),
        ([("r1\t0\tT2\t1\t3\t5M\tNH:i:2\tHI:i:1").toList,
          ("r1\t256\tT3\t1\t3\t5M\tNH:i:2\tHI:i:2").toList] : List (List Char))[j]? = some o2 →
        clear256 o2 = true → j = i := by
  have h := claim_c2_primary 3 (("r1\t16\tT1\t1\t50\t5M\tNH:i:3\tHI:i:1").toList)
    [("r1\t256\tT2\t1\t50\t5M\tNH:i:3\tHI:i:2").toList,
     ("r1\t256\tT3\t1\t50\t5M\tNH:i:3\tHI:i:3").toList]
    [("r1\t0\tT2\t1\t3\t5M\tNH:i:2\tHI:i:1").toList,
     ("r1\t256\tT3\t1\t3\t5M\tNH:i:2\tHI:i:2").toList]
    (by rfl) (by decide) (by decide) (by decide) (by decide)
  exact h.1

/-- C3: every line emitted by the group rewriter carries, in its fifth
column, the same recomputed mapping quality `mapqVal k` for `k`
survivors; `mapqVal k = 255` for `k ≤ 1`, and for `k ≥ 2` it is the
truncating integer cast (floor of a nonnegative value) of the exact real
`-10·log₁₀(1 - 1/k)`; in particular `mapqVal 2 = 3` and `mapqVal 4 = 1`.
(The `double` evaluation of `std::log10` is modelled by the exact real
logarithm.) -/
theorem claim_c3_mapq :
    (∀ (g : List (List Char)) (p : Option Nat) (outs : List (List Char)) (i : Nat)
      (l o : List Char),
      rewriteGroup g p = .ok outs →
      g[i]? = some l → outs[i]? = some o → 5 ≤ (cppFields l).length →
      (splitTabs o)[4]? = some (natChars (mapqVal g.length))) ∧
    (∀ k : Nat, k ≤ 1 → mapqVal k = 255) ∧
    (∀ k : Nat, 2 ≤ k → (mapqVal k : ℤ) = ⌊(-10 : ℝ) * Real.logb 10 (1 - 1 / (k : ℝ))⌋) ∧
    mapqVal 2 = 3 ∧ mapqVal 4 = 1 := by
  refine ⟨?_, ?_, mapqVal_eq_floor, by decide, by decide⟩
  · intro g p outs i l o hrw hl ho h5
    obtain ⟨q, hq, _⟩ := rewriteGroup_ok_cases hrw
    rw [hq, rrEmit_getElem?, hl] at ho
    simp only [Option.map_some', Option.some.injEq] at ho
    have hlne : l ≠ [] := by
      intro hc
      subst hc
      simp [cppFields, splitTabs] at h5
    rw [← ho]
    exact rewriteLine_mapq_field hlne (natChars_no_tab _) h5
  · intro k hk
    unfold mapqVal
    rw [if_pos hk]

/-- Witness for C3: a concrete 2-survivor rewrite puts `3` (the
truncation of `-10·log₁₀(1/2) ≈ 3.01`) into column five of a survivor. -/
theorem claim_c3_mapq_witness :
    (splitTabs (("r1\t0\tT3\t1\t3\t5M\tNH:i:2\tHI:i:2").toList))[4]? =
      some (natChars (mapqVal 2)) ∧ mapqVal 2 = 3 ∧ mapqVal 4 = 1 := by
  have h := claim_c3_mapq
  refine ⟨?_, h.2.2.2.1, h.2.2.2.2⟩
  have := h.1 [("r1\t256\tT2\t1\t50\t5M\tNH:i:2\tHI:i:1").toList,
    ("r1\t0\tT3\t1\t50\t5M\tNH:i:2\tHI:i:3").toList] (some 0)
    [("r1\t256\tT2\t1\t3\t5M\tNH:i:2\tHI:i:1").toList,
     ("r1\t0\tT3\t1\t3\t5M\tNH:i:2\tHI:i:2").toList] 1
    (("r1\t0\tT3\t1\t50\t5M\tNH:i:2\tHI:i:3").toList)
    (("r1\t0\tT3\t1\t3\t5M\tNH:i:2\tHI:i:2").toList)
    (by rfl) (by rfl) (by rfl) (by decide)
  exact this

theorem RR_collect_total : ∀ (n : Nat) (ls : List (List Char)) (st : RR.St),
    n ≤ ls.length → (∀ x ∈ ls.take n, check_flag x 16 ≠ none) →
    ∃ st2, RR.collect st n ls = .ok st2 := by
  intro n
  induction n with
  | zero => intro ls st _ _; exact ⟨st, rfl⟩
  | succ n ih =>
    intro ls st hlen hcl
    cases ls with
    | nil => simp at hlen
    | cons x xs =>
      have hx := hcl x (by rw [List.take_succ_cons]; simp)
      cases hcf : check_flag x 16 with
      | none => exact absurd hcf hx
      | some b =>
        have hst : ∃ st2, RR.step st x = some st2 := by
          unfold RR.step
          rw [hcf]
          cases b <;> exact ⟨_, rfl⟩
        obtain ⟨stm, hstm⟩ := hst
        obtain ⟨st2, hco⟩ := ih xs stm (by simp at hlen; omega)
          (fun y hy => hcl y (by rw [List.take_succ_cons]; simp [hy]))
        refine ⟨st2, ?_⟩
        show (match RR.step st x with
          | none => Except.error Halt.exc
          | some st2 => RR.collect st2 n xs) = _
        rw [hstm]
        show RR.collect stm n xs = Except.ok st2
        exact hco

theorem ST_collect_total : ∀ (n : Nat) (ls : List (List Char))
    (ids : List (List Char)) (st : ST.St),
    n ≤ ls.length →
    (∀ x ∈ ls.take n, ST.memT ids x = true → check_flag x 256 ≠ none) →
    ∃ st2, ST.collect ids st n ls = .ok st2 := by
  intro n
  induction n with
  | zero => intro ls ids st _ _; exact ⟨st, rfl⟩
  | succ n ih =>
    intro ls ids st hlen hcl
    cases ls with
    | nil => simp at hlen
    | cons x xs =>
      have hst : ∃ st2, ST.step ids st x = some st2 := by
        unfold ST.step
        by_cases hmem : ST.memT ids x
        · rw [if_pos hmem]
          have hx := hcl x (by rw [List.take_succ_cons]; simp) hmem
          cases hcf : check_flag x 256 with
          | none => exact absurd hcf hx
          | some b => exact ⟨_, rfl⟩
        · rw [if_neg hmem]
          exact ⟨st, rfl⟩
      obtain ⟨stm, hstm⟩ := hst
      obtain ⟨st2, hco⟩ := ih xs ids stm (by simp at hlen; omega)
        (fun y hy => hcl y (by rw [List.take_succ_cons]; simp [hy]))
      refine ⟨st2, ?_⟩
      show (match ST.step ids st x with
        | none => Except.error Halt.exc
        | some st2 => ST.collect ids st2 n xs) = _
      rw [hstm]
      show ST.collect ids stm n xs = Except.ok st2
      exact hco

/-- C4: under the whole-group gene-ambiguity policy of
filter_ambiguous_genes, a multi-record group whose transcript ids all
resolve is emitted completely and unchanged exactly when every record
resolves to the same gene as the first record, produces zero output
lines when any record resolves to a different gene, and in all cases the
output is either the verbatim group or empty — never a partial or
rewritten group. -/
theorem claim_c4_gene_ambiguity :
    ∀ (tg : List (List Char × List Char)) (count : Nat) (line : List Char)
      (rest : List (List Char)),
      2 ≤ count → count - 1 ≤ rest.length →
      (∀ x ∈ grpOf count line rest,
        ∃ g, AG.lookup tg (AG.extract_transcript_id x) = some g) →
      ∃ outs, AG.groupRun tg count line rest = .ok outs ∧
        ((∀ x ∈ grpOf count line rest, AG.lookup tg (AG.extract_transcript_id x) =
            AG.lookup tg (AG.extract_transcript_id line)) → outs = grpOf count line rest) ∧
        ((∃ x ∈ grpOf count line rest, AG.lookup tg (AG.extract_transcript_id x) ≠
            AG.lookup tg (AG.extract_transcript_id line)) → outs = []) ∧
        (outs = grpOf count line rest ∨ outs = []) := by
  intro tg count line rest hc2 hlen hres
  exact AG_groupRun_spec hc2 hlen hres

/-- Witness for C4: a concrete same-gene group of three records passes
verbatim, and a group with a diverging gene yields zero lines. -/
theorem claim_c4_gene_ambiguity_witness :
    (∃ outs, AG.groupRun [(("T1").toList, ("G1").toList), (("T2").toList, ("G1").toList),
        (("T3").toList, ("G2").toList)] 3
        (("r1\t0\tT1\t1\t50\t5M\tNH:i:3").toList)
        [("r1\t256\tT2\t1\t50\t5M\tNH:i:3").toList,
         ("r1\t256\tT2\t1\t50\t5M\tNH:i:3").toList] = .ok outs ∧
      outs = grpOf 3 (("r1\t0\tT1\t1\t50\t5M\tNH:i:3").toList)
        [("r1\t256\tT2\t1\t50\t5M\tNH:i:3").toList,
         ("r1\t256\tT2\t1\t50\t5M\tNH:i:3").toList]) ∧
    (∃ outs, AG.groupRun [(("T1").toList, ("G1").toList), (("T2").toList, ("G1").toList),
        (("T3").toList, ("G2").toList)] 3
        (("r1\t0\tT1\t1\t50\t5M\tNH:i:3").toList)
        [("r1\t256\tT2\t1\t50\t5M\tNH:i:3").toList,
         ("r1\t256\tT3\t1\t50\t5M\tNH:i:3").toList] = .ok outs ∧ outs = []) := by
  constructor
  · obtain ⟨outs, h1, h2, _, _⟩ := claim_c4_gene_ambiguity
      [(("T1").toList, ("G1").toList), (("T2").toList, ("G1").toList),
        (("T3").toList, ("G2").toList)] 3
      (("r1\t0\tT1\t1\t50\t5M\tNH:i:3").toList)
      [("r1\t256\tT2\t1\t50\t5M\tNH:i:3").toList,
       ("r1\t256\tT2\t1\t50\t5M\tNH:i:3").toList]
      (by decide) (by decide)
      (by
        intro x hx
        have hs : (AG.lookup [(("T1").toList, ("G1").toList), (("T2").toList, ("G1").toList),
            (("T3").toList, ("G2").toList)] (AG.extract_transcript_id x)).isSome = true := by
          revert x hx
          decide
        exact Option.isSome_iff_exists.mp hs)
    exact ⟨outs, h1, h2 (by decide)⟩
  · obtain ⟨outs, h1, _, h3, _⟩ := claim_c4_gene_ambiguity
      [(("T1").toList, ("G1").toList), (("T2").toList, ("G1").toList),
        (("T3").toList, ("G2").toList)] 3
      (("r1\t0\tT1\t1\t50\t5M\tNH:i:3").toList)
      [("r1\t256\tT2\t1\t50\t5M\tNH:i:3").toList,
       ("r1\t256\tT3\t1\t50\t5M\tNH:i:3").toList]
      (by decide) (by decide)
      (by
        intro x hx
        have hs : (AG.lookup [(("T1").toList, ("G1").toList), (("T2").toList, ("G1").toList),
            (("T3").toList, ("G2").toList)] (AG.extract_transcript_id x)).isSome = true := by
          revert x hx
          decide
        exact Option.isSome_iff_exists.mp hs)
    exact ⟨outs, h1, h3 (by decide)⟩

/-- C5: when a non-header record declares multiplicity `count ≥ 2` but
end of input arrives before `count - 1` further lines, both group-based
tools abort the run with a non-zero condition (exit 17 for the truncated
group, or another fatal condition met first on the available lines) and
emit no record of the incomplete group. -/
theorem claim_c5_truncation :
    (∀ (line : List Char) (rest : List (List Char)) (s : List Char) (count : Nat),
      line ≠ [] → line.head? ≠ some '@' →
      nhField line = some s → parseNatPfx s = some count → 2 ≤ count →
      rest.length < count - 1 →
      ∃ h, RR.processFile (line :: rest) = ([], some h) ∧
        (h = Halt.exc ∨ h = Halt.code 17)) ∧
    (∀ (tg : List (List Char × List Char)) (line : List Char) (rest : List (List Char))
      (s : List Char) (count : Nat),
      line ≠ [] → line.head? ≠ some '@' →
      nhField line = some s → parseNatPfx s = some count → 2 ≤ count →
      rest.length < count - 1 →
      ∃ h, AG.processFile tg (line :: rest) = ([], some h) ∧
        (h = Halt.code 6 ∨ h = Halt.code 7 ∨ h = Halt.code 17)) := by
  constructor
  · intro line rest s count h0 h1 h2 h3 hc2 hlen
    obtain ⟨h, hh, hcase⟩ := @RR_groupRun_short count line rest hlen
    exact ⟨h, RR_processFile_group_err h0 h1 h2 h3 (by omega) hh, hcase⟩
  · intro tg line rest s count h0 h1 h2 h3 hc2 hlen
    obtain ⟨h, hh, hcase⟩ := @AG_groupRun_short tg count line rest hlen
    exact ⟨h, AG_processFile_group_err h0 h1 h2 h3 (by omega) hh, hcase⟩

/-- Witness for C5: a record declaring `NH:i:3` followed by a single
line before end of input makes filter_reverse_reads abort with no
output. -/
theorem claim_c5_truncation_witness :
    ∃ h, RR.processFile [("r1\t0\tT1\t1\t50\t5M\tNH:i:3").toList,
        ("r1\t0\tT2\t1\t50\t5M\tNH:i:3").toList] = ([], some h) ∧
      (h = Halt.exc ∨ h = Halt.code 17) := by
  exact claim_c5_truncation.1 (("r1\t0\tT1\t1\t50\t5M\tNH:i:3").toList)
    [("r1\t0\tT2\t1\t50\t5M\tNH:i:3").toList] (("3").toList) 3
    (by decide) (by decide) (by rfl) (by rfl) (by decide) (by decide)

theorem RR_groupRun_verbatim_aux {count : Nat} {line : List Char}
    {rest : List (List Char)} {st0 st2 : RR.St}
    (hst : RR.step ⟨[], none, false⟩ line = some st0)
    (hco : RR.collect st0 (count - 1) rest = .ok st2)
    (hmodf : st2.modification = false) :
    RR.groupRun count line rest = .ok st2.group := by
  unfold RR.groupRun
  rw [hst]
  show (match RR.collect st0 (count - 1) rest with
    | Except.error e => Except.error e
    | Except.ok st =>
      if st.modification then
        match rewriteGroup st.group st.primary with
        | Except.error c => Except.error (Halt.code c)
        | Except.ok outs => Except.ok outs
      else Except.ok st.group) = _
  rw [hco]
  show (if st2.modification = true then
      match rewriteGroup st2.group st2.primary with
      | Except.error c => Except.error (Halt.code c)
      | Except.ok outs => Except.ok outs
    else Except.ok st2.group) = _
  rw [hmodf]
  rfl

theorem ST_groupRun_verbatim_aux {ids : List (List Char)} {count : Nat} {line : List Char}
    {rest : List (List Char)} {st0 st2 : ST.St}
    (hst : ST.step ids ⟨[], none⟩ line = some st0)
    (hco : ST.collect ids st0 (count - 1) rest = .ok st2)
    (hglen : st2.group.length = count) :
    ST.groupRun ids count line rest = .ok st2.group := by
  unfold ST.groupRun
  rw [hst]
  show (match ST.collect ids st0 (count - 1) rest with
    | Except.error e => Except.error e
    | Except.ok st =>
      if st.group.length = count then Except.ok st.group
      else
        match rewriteGroup st.group st.primary with
        | Except.error c => Except.error (Halt.code c)
        | Except.ok outs => Except.ok outs) = _
  rw [hco]
  show (if st2.group.length = count then Except.ok st2.group
    else
      match rewriteGroup st2.group st2.primary with
      | Except.error c => Except.error (Halt.code c)
      | Except.ok outs => Except.ok outs) = _
  rw [if_pos hglen]

/-- C6: a multi-record group in which every record passes the per-record
policy is re-emitted byte-for-byte in its original order, by both the
reverse-strand filter and the allow-list filter. -/
theorem claim_c6_identity :
    (∀ (count : Nat) (line : List Char) (rest : List (List Char)),
      2 ≤ count → count - 1 ≤ rest.length →
      (∀ x ∈ grpOf count line rest, check_flag x 16 = some true) →
      RR.groupRun count line rest = .ok (grpOf count line rest)) ∧
    (∀ (ids : List (List Char)) (count : Nat) (line : List Char) (rest : List (List Char)),
      2 ≤ count → count - 1 ≤ rest.length →
      (∀ x ∈ grpOf count line rest, ST.memT ids x = true) →
      (∀ x ∈ grpOf count line rest, check_flag x 256 ≠ none) →
      ST.groupRun ids count line rest = .ok (grpOf count line rest)) := by
  have hgrpm : ∀ (count : Nat) (line : List Char) (rest : List (List Char)),
      ∀ x ∈ rest.take (count - 1), x ∈ grpOf count line rest := by
    intro count line rest x hx
    exact List.mem_cons_of_mem _ hx
  constructor
  · intro count line rest hc2 hlen hall
    have hline := hall line (by exact List.mem_cons_self _ _)
    obtain ⟨st2, hco⟩ := RR_collect_total (count - 1) rest
      { group := [line], primary := if primT line then some 0 else none,
        modification := false }
      hlen (fun x hx => by rw [hall x (hgrpm count line rest x hx)]; simp)
    obtain ⟨_, _, hgr, hmod, _⟩ := RR_collect_spec _ _ _ _ hco
    have hfs : (rest.take (count - 1)).filter fwdT = rest.take (count - 1) :=
      List.filter_eq_self.mpr
        (fun x hx => fwdT_true_iff.mpr (hall x (hgrpm count line rest x hx)))
    have hst : RR.step ⟨[], none, false⟩ line = some
        { group := [line], primary := if primT line then some 0 else none,
          modification := false } := by
      unfold RR.step
      rw [hline]
      rfl
    have hmodf : st2.modification = false := by
      rw [hmod]
      have hany : (rest.take (count - 1)).any
          (fun x => check_flag x 16 == some false) = false := by
        rw [any_false_eq_not_all (fun x hx => by
          rw [hall x (hgrpm count line rest x hx)]; simp)]
        rw [List.all_eq_true.mpr
          (fun x hx => fwdT_true_iff.mpr (hall x (hgrpm count line rest x hx)))]
        rfl
      rw [hany]
      rfl
    have hres := RR_groupRun_verbatim_aux hst hco hmodf
    have hgrp2 : st2.group = grpOf count line rest := by
      rw [hgr, hfs]
      rfl
    rw [hgrp2] at hres
    exact hres
  · intro ids count line rest hc2 hlen hall hcls
    have hline := hall line (by exact List.mem_cons_self _ _)
    have hlinec := hcls line (by exact List.mem_cons_self _ _)
    cases hcf : check_flag line 256 with
    | none => exact absurd hcf hlinec
    | some b =>
      obtain ⟨st2, hco⟩ := ST_collect_total (count - 1) rest ids
        { group := [line], primary := if b then some 0 else none }
        hlen (fun x hx _ => hcls x (hgrpm count line rest x hx))
      obtain ⟨_, hgr, _⟩ := ST_collect_spec _ _ _ _ _ hco
      have hfs : (rest.take (count - 1)).filter (ST.memT ids) = rest.take (count - 1) :=
        List.filter_eq_self.mpr (fun x hx => hall x (hgrpm count line rest x hx))
      have hst : ST.step ids ⟨[], none⟩ line = some
          { group := [line], primary := if b then some 0 else none } := by
        unfold ST.step
        rw [if_pos hline, hcf]
        rfl
      have hglen : st2.group.length = count := by
        rw [hgr, hfs]
        simp only [List.length_append, List.length_singleton, List.length_take]
        omega
      have hres := ST_groupRun_verbatim_aux hst hco hglen
      have hgrp2 : st2.group = grpOf count line rest := by
        rw [hgr, hfs]
        rfl
      rw [hgrp2] at hres
      exact hres

/-- Witness for C6: a fully forward-strand 2-record group passes through
filter_reverse_reads byte-for-byte. -/
theorem claim_c6_identity_witness :
    RR.groupRun 2 (("r1\t0\tT1\t1\t50\t5M\tNH:i:2\tHI:i:1").toList)
      [("r1\t256\tT2\t1\t50\t5M\tNH:i:2\tHI:i:2").toList] =
      .ok (grpOf 2 (("r1\t0\tT1\t1\t50\t5M\tNH:i:2\tHI:i:1").toList)
        [("r1\t256\tT2\t1\t50\t5M\tNH:i:2\tHI:i:2").toList]) := by
  exact claim_c6_identity.1 2 (("r1\t0\tT1\t1\t50\t5M\tNH:i:2\tHI:i:1").toList)
    [("r1\t256\tT2\t1\t50\t5M\tNH:i:2\tHI:i:2").toList]
    (by decide) (by decide) (by decide)

/-- C7 counterexample: the claim "every input line whose first character
is `@` is emitted to the output unchanged, in every tool, regardless of
content" is false for select_transcripts: an `@SQ` header line whose SN
name is not allow-listed produces no output at all. -/
theorem claim_c7_header_cex :
    (("@SQ\tSN:T1\tLN:5").toList).head? = some '@' ∧
    ST.processFile [] [("@SQ\tSN:T1\tLN:5").toList] = ([], none) ∧
    (ST.processFile [] [("@SQ\tSN:T1\tLN:5").toList]).1 ≠ [("@SQ\tSN:T1\tLN:5").toList] := by
  refine ⟨by rfl, by rfl, by decide⟩

/-- C7 amended: header lines pass through unchanged and take part in no
policy or grouping in filter_reverse_reads and filter_ambiguous_genes;
in select_transcripts the same holds for header lines not starting with
`"@SQ\t"`, while an `@SQ` header line is kept (unchanged) iff its `SN:`
name is in the allow list, and dropped when the `SN:` field is
missing. -/
theorem claim_c7_header_amended :
    (∀ (line : List Char) (rest : List (List Char)), line ≠ [] → line.head? = some '@' →
      RR.processFile (line :: rest) =
        (line :: (RR.processFile rest).1, (RR.processFile rest).2)) ∧
    (∀ (tg : List (List Char × List Char)) (line : List Char) (rest : List (List Char)),
      line ≠ [] → line.head? = some '@' →
      AG.processFile tg (line :: rest) =
        (line :: (AG.processFile tg rest).1, (AG.processFile tg rest).2)) ∧
    (∀ (ids : List (List Char)) (line : List Char) (rest : List (List Char)),
      line ≠ [] → line.head? = some '@' →
      ST.processFile ids (line :: rest) =
        (ST.headerOut ids line ++ (ST.processFile ids rest).1, (ST.processFile ids rest).2)) ∧
    (∀ (ids : List (List Char)) (line : List Char),
      startsW ST.sqTagL line = false → ST.headerOut ids line = [line]) ∧
    (∀ (ids : List (List Char)) (line name : List Char),
      startsW ST.sqTagL line = true → ST.snField line = some name →
      ST.headerOut ids line = (if ids.contains name then [line] else [])) ∧
    (∀ (ids : List (List Char)) (line : List Char),
      startsW ST.sqTagL line = true → ST.snField line = none →
      ST.headerOut ids line = []) := by
  refine ⟨?_, ?_, ?_, ?_, ?_, ?_⟩
  · intro line rest h0 h1
    exact RR_processFile_header h0 h1
  · intro tg line rest h0 h1
    exact AG_processFile_header h0 h1
  · intro ids line rest h0 h1
    exact ST_processFile_header h0 h1
  · intro ids line hsq
    unfold ST.headerOut
    rw [if_neg (by simp [hsq])]
  · intro ids line name hsq hsn
    unfold ST.headerOut
    rw [if_pos hsq, hsn]
  · intro ids line hsq hsn
    unfold ST.headerOut
    rw [if_pos hsq, hsn]

/-- Witness for the amended C7: a non-`@SQ` header line passes through
filter_reverse_reads unchanged. -/
theorem claim_c7_header_amended_witness :
    RR.processFile [("@HD\tVN:1.0").toList] = ([("@HD\tVN:1.0").toList], none) := by
  have h := claim_c7_header_amended.1 (("@HD\tVN:1.0").toList) [] (by decide) (by rfl)
  rw [h]
  rfl

/-- C8 counterexample: the claim that EVERY alignment record with an
unknown transcript id aborts the run is false.  A record declaring
`NH:i:1` is emitted directly, without consulting the transcript→gene
table (filter_ambiguous_genes.cpp lines 99-100): here the record's id
is absent from the (empty) table, yet the record is emitted unchanged
and the run continues with no abort (halt component `none`). -/
theorem claim_c8_unknown_id_cex :
    AG.lookup [] (AG.extract_transcript_id (("r1\t0\tTX\t1\t50\t5M\tNH:i:1").toList)) = none ∧
    AG.processFile [] [("r1\t0\tTX\t1\t50\t5M\tNH:i:1").toList] =
      ([("r1\t0\tTX\t1\t50\t5M\tNH:i:1").toList], none) := by
  exact ⟨rfl, rfl⟩

/-- C8 amended: under the gene-ambiguity policy, an alignment record of a
multi-record group (declared NH count ≠ 1) whose transcript id is absent
from the transcript→gene table aborts the run: exit code 6 when the
group's first record is unknown, exit code 7 when a later record of the
group is unknown; in both cases no line of the file suffix is emitted,
and the codes are distinct and non-zero.  Singleton records (NH count 1)
are exempt: they are emitted without any table lookup. -/
theorem claim_c8_unknown_id_amended :
    (∀ (tg : List (List Char × List Char)) (line : List Char) (rest : List (List Char))
      (s : List Char) (count : Nat),
      line ≠ [] → line.head? ≠ some '@' → nhField line = some s →
      parseNatPfx s = some count → count ≠ 1 →
      AG.lookup tg (AG.extract_transcript_id line) = none →
      AG.processFile tg (line :: rest) = ([], some (Halt.code 6))) ∧
    (∀ (tg : List (List Char × List Char)) (line bad : List Char)
      (p tail : List (List Char)) (s g0 : List Char) (count : Nat),
      line ≠ [] → line.head? ≠ some '@' → nhField line = some s →
      parseNatPfx s = some count → count ≠ 1 →
      AG.lookup tg (AG.extract_transcript_id line) = some g0 →
      p.length < count - 1 →
      (∀ x ∈ p, ∃ g, AG.lookup tg (AG.extract_transcript_id x) = some g) →
      AG.lookup tg (AG.extract_transcript_id bad) = none →
      AG.processFile tg (line :: (p ++ bad :: tail)) = ([], some (Halt.code 7))) ∧
    (6 : Nat) ≠ 0 ∧ (7 : Nat) ≠ 0 ∧ (6 : Nat) ≠ 7 := by
  refine ⟨?_, ?_, by decide, by decide, by decide⟩
  · intro tg line rest s count h0 h1 h2 h3 h4 hg
    exact AG_processFile_group_err h0 h1 h2 h3 h4 (AG_groupRun_err6 hg)
  · intro tg line bad p tail s g0 count h0 h1 h2 h3 h4 hg0 hp hpres hbad
    exact AG_processFile_group_err h0 h1 h2 h3 h4
      (AG_groupRun_err7 hg0 rfl hp hpres hbad)

/-- Witness for the amended C8: with an empty table, a 2-record group
aborts with exit 6 at its first record and emits nothing. -/
theorem claim_c8_unknown_id_amended_witness :
    AG.processFile [] [("r1\t0\tT1\t1\t50\t5M\tNH:i:2").toList, ("x").toList] =
      ([], some (Halt.code 6)) := by
  exact claim_c8_unknown_id_amended.1 [] (("r1\t0\tT1\t1\t50\t5M\tNH:i:2").toList)
    [("x").toList] (("2").toList) 2
    (by decide) (by decide) (by rfl) (by rfl) (by decide) (by rfl)

/-- C9 counterexample: the claim that a parity-violating argument count
exits with a tool-specific non-zero code is false: each tool prints its
usage text and exits 0 (`some 0`) on such invocations (argc counts the
program name: 2 means one file argument for filter_reverse_reads, which
needs pairs). -/
theorem claim_c9_cli_cex :
    RR.cliExit 2 = some 0 ∧ (2 : Nat) % 2 ≠ 1 ∧
    AG.cliExit 3 = some 0 ∧ (3 : Nat) % 2 ≠ 0 ∧
    ST.cliExit 5 = some 0 ∧ (5 : Nat) % 2 ≠ 0 := by
  decide

/-- C9 amended: a zero-argument invocation prints usage and exits 0, and
a parity-violating (or, for select_transcripts, too-short) invocation
ALSO prints usage and exits 0; well-formed argument counts proceed. -/
theorem claim_c9_cli_amended :
    RR.cliExit 1 = some 0 ∧ AG.cliExit 1 = some 0 ∧ ST.cliExit 1 = some 0 ∧
    (∀ argc : Nat, argc % 2 = 0 → RR.cliExit argc = some 0) ∧
    (∀ argc : Nat, argc % 2 = 1 → AG.cliExit argc = some 0) ∧
    (∀ argc : Nat, argc % 2 = 1 ∨ argc < 4 → ST.cliExit argc = some 0) ∧
    (∀ argc : Nat, 3 ≤ argc → argc % 2 = 1 → RR.cliExit argc = none) ∧
    (∀ argc : Nat, 2 ≤ argc → argc % 2 = 0 → AG.cliExit argc = none) ∧
    (∀ argc : Nat, 4 ≤ argc → argc % 2 = 0 → ST.cliExit argc = none) := by
  refine ⟨by decide, by decide, by decide, ?_, ?_, ?_, ?_, ?_, ?_⟩
  · intro argc h
    unfold RR.cliExit
    rw [if_pos (by omega)]
  · intro argc h
    unfold AG.cliExit
    rw [if_pos (by omega)]
  · intro argc h
    unfold ST.cliExit
    rcases h with h | h
    · rw [if_pos (by omega)]
    · rw [if_pos (by omega)]
  · intro argc h1 h2
    unfold RR.cliExit
    rw [if_neg (by omega)]
  · intro argc h1 h2
    unfold AG.cliExit
    rw [if_neg (by omega)]
  · intro argc h1 h2
    unfold ST.cliExit
    rw [if_neg (by omega)]

/-- Witness for the amended C9: one unpaired file argument (argc 2)
exits 0 with usage, three arguments (argc 4, a valid pair count for
filter_ambiguous_genes) proceed. -/
theorem claim_c9_cli_amended_witness :
    RR.cliExit 2 = some 0 ∧ AG.cliExit 4 = none := by
  exact ⟨claim_c9_cli_amended.2.2.2.1 2 (by decide),
    claim_c9_cli_amended.2.2.2.2.2.2.2.1 4 (by decide) (by decide)⟩

/-- C10: in filter_reverse_reads, a non-empty line with no tab (fewer
than two columns) is classified like a reverse-strand record:
`check_flag` returns `some false`, so inside a multi-record group the
line is excluded from the survivors without aborting, counts as a
modification, and (when a surviving primary exists) the group is
re-emitted through the rewriter, shrinking it. -/
theorem claim_c10_malformed :
    (∀ (l : List Char) (f : Nat), l ≠ [] → '\t' ∉ l → check_flag l f = some false) ∧
    (∀ (count : Nat) (line m : List Char) (rest outs : List (List Char)),
      RR.groupRun count line rest = .ok outs →
      m ∈ grpOf count line rest → m ≠ [] → '\t' ∉ m →
      (∃ x ∈ grpOf count line rest, x ≠ m ∧ check_flag x 256 = some true ∧
        check_flag x 16 = some true) →
      fwdT m = false ∧
      m ∉ (grpOf count line rest).filter fwdT ∧
      outs = rrEmit ((grpOf count line rest).filter fwdT) none ∧
      ((grpOf count line rest).filter fwdT).length < (grpOf count line rest).length) := by
  constructor
  · intro l f _ hna
    exact check_flag_no_tab f hna
  · intro count line m rest outs h hm hmne hmna hex
    obtain ⟨hlen, hclass, hallc, hexc⟩ := RR_groupRun_ok_spec h
    have hfm : fwdT m = false := by
      unfold fwdT
      rw [check_flag_no_tab 16 hmna]
      rfl
    have hrw := hexc ⟨m, hm, hfm⟩
    obtain ⟨x, hx, hxne, hxp, hxf⟩ := hex
    have hxs : x ∈ (grpOf count line rest).filter fwdT :=
      List.mem_filter.mpr ⟨hx, fwdT_true_iff.mpr hxf⟩
    have hxprim : primT x = true := primT_true_iff.mpr hxp
    have hpne : lastPrimFrom 0 none ((grpOf count line rest).filter fwdT) ≠ none :=
      lastPrimFrom_isSome_of_mem hxs hxprim 0 none
    refine ⟨hfm, ?_, ?_, ?_⟩
    · intro hc
      have := List.of_mem_filter hc
      rw [hfm] at this
      simp at this
    · cases hp : lastPrimFrom 0 none ((grpOf count line rest).filter fwdT) with
      | none => exact absurd hp hpne
      | some j =>
        rw [hp] at hrw
        exact rewriteGroup_ok_some hrw
    · apply List.length_filter_lt_length_iff_exists.mpr
      exact ⟨m, hm, by simp [hfm]⟩

/-- Witness for C10: a tab-less junk line inside a declared 2-record
group is silently dropped and the surviving record is rewritten. -/
theorem claim_c10_malformed_witness :
    fwdT (("garbage").toList) = false ∧
    RR.groupRun 2 (("r1\t0\tT1\t1\t50\t5M\tNH:i:2").toList) [("garbage").toList] =
      .ok (rrEmit ((grpOf 2 (("r1\t0\tT1\t1\t50\t5M\tNH:i:2").toList)
        [("garbage").toList]).filter fwdT) none) := by
  have h := claim_c10_malformed.2 2 (("r1\t0\tT1\t1\t50\t5M\tNH:i:2").toList)
    (("garbage").toList) [("garbage").toList]
    (rrEmit ((grpOf 2 (("r1\t0\tT1\t1\t50\t5M\tNH:i:2").toList)
      [("garbage").toList]).filter fwdT) none)
    (by rfl) (by decide) (by decide) (by decide)
    ⟨("r1\t0\tT1\t1\t50\t5M\tNH:i:2").toList, by decide, by decide, by rfl, by rfl⟩
  exact ⟨h.1, by rfl⟩
